import Mathlib

/-!
# gotp: a shallow embedding of `src/gotp/actor.go`

The Go program is a small actor runtime.  Its sequential parts (`GoActor.Init`,
`GoActor.Running`, `GoActor.stop`, `makeError` with the two library calls it is
made of) are embedded as functions.  Its concurrent part (`recvLoop` with its
deferred function, the worker `runFn`, the goroutines of `Pid.Watch`,
`StartChild` and `StartLink`) is embedded as a labelled transition system: a
state records the program counter of every goroutine, an action is one atomic
step of the Go scheduler (a channel rendezvous moves both partners at once), and
`Proc.run` replays a schedule.  Every interleaving of the program is a schedule.
An actor embeds `GoActor` or `*GoActor`; in the second case the host program may
set the pointer to nil, and `actor.stop()` then panics inside `recvLoop`.
-/

namespace Gotp

/-! ## Data model -/

/-- What a call of a method of a Go value does: it returns a text, or it
panics.  For a panic `nilReceiver` says that the receiver is a nil pointer and
`msg` is the string the method panics with. -/
inductive Call where
  | returns (text : String)
  | panics (nilReceiver : Bool) (msg : String)
  deriving DecidableEq, Repr

/-- A non-nil Go `error` value.  `errors.New` builds a pointer to a new
`errorString`; the pointer is the identity of the value, so the address is kept.
Every other implementation of `error` is described by its dynamic type, by what
its `Error()` method does, and, when the type also implements `fmt.Formatter`,
by what its `Format` method does under the verb `%s`. -/
inductive ErrVal where
  | errorString (addr : Nat) (s : String)
  | custom (dyn : String) (error : Call) (format : Option Call)
  deriving DecidableEq, Repr

/-- Method `Error()` of an error value. -/
def ErrVal.Error : ErrVal → Call
  | .errorString _ s => .returns s
  | .custom _ error _ => error

/-- A Go value of type `error`: `none` is `nil`. -/
abbrev GoError := Option ErrVal

/-- A non-nil `interface{}` value as `recover()` may return it: a `string`, an
error, an `int`, a `bool`, or a value of a type with a `String()` method, which
may also implement `fmt.Formatter`. -/
inductive Value where
  | str (s : String)
  | err (e : ErrVal)
  | int (n : Int)
  | bool (b : Bool)
  | stringer (dyn : String) (string : Call) (format : Option Call)
  deriving DecidableEq, Repr

/-- What package `fmt` writes for a method it calls under the verb `%s`
(`handleMethods` with `catchPanic`): the text the method returns; `<nil>` when
the method panics on a nil pointer receiver; else the note about the panic. -/
def fmtCall (method : String) : Call → String
  | .returns text => text
  | .panics true _ => "<nil>"
  | .panics false msg => "%!s(PANIC=" ++ method ++ " method: " ++ msg ++ ")"

/-- The Go library call `fmt.Sprintf("%s", i)` for a non-nil operand: a `string`
is written as it is; an operand that implements `fmt.Formatter` is written by
its `Format` method; else an operand that implements `error` is written through
`Error()`, and else one with a `String()` method through `String()`; an `int` or
a `bool` has no `%s` form and is written as a bad verb. -/
def sprintfS : Value → String
  | .str s => s
  | .err (.errorString _ s) => s
  | .err (.custom _ _ (some format)) => fmtCall "Format" format
  | .err (.custom _ error none) => fmtCall "Error" error
  | .int n => "%!s(int=" ++ toString n ++ ")"
  | .bool b => "%!s(bool=" ++ toString b ++ ")"
  | .stringer _ _ (some format) => fmtCall "Format" format
  | .stringer _ string none => fmtCall "String" string

/-- The allocator of the Go runtime, as far as `errors.New` needs it: every
address below `next` is in use, `next` is the address of the next object. -/
structure Heap where
  next : Nat
  deriving DecidableEq, Repr

/-- An error value lives in the heap: an `errorString` does when its address is
in use; for the other error types no address is modelled. -/
def ErrVal.within (h : Heap) : ErrVal → Bool
  | .errorString addr _ => decide (addr < h.next)
  | .custom _ _ _ => true

/-- A value lives in the heap. -/
def Value.within (h : Heap) : Value → Bool
  | .err e => e.within h
  | _ => true

/-- The Go library call `errors.New(text)`: a pointer to a new `errorString`,
allocated at the next address of the heap, and the heap after the allocation. -/
def errorsNew (h : Heap) (text : String) : GoError × Heap :=
  (some (ErrVal.errorString h.next text), { next := h.next + 1 })

/-- Function `makeError` (actor.go, line 121): the error and the heap after the
call. -/
def makeError (h : Heap) (i : Value) : GoError × Heap :=
  errorsNew h (sprintfS i)

/-- Type `Pid` (line 75): three channels, each named by its identity. -/
structure Pid where
  recv : Nat
  stop : Nat
  errored : Nat
  deriving DecidableEq, Repr

/-- Type `Stop` (line 68), the supervision notification. -/
structure Stop where
  err : GoError
  Sender : Pid
  deriving DecidableEq, Repr

/-- The `interface{}` payload of a message: either a `Stop` value built by the
runtime or a value of the host program, which the runtime never inspects and
which is named here by a code number. -/
inductive Payload where
  | data (code : Nat)
  | notice (s : Stop)
  deriving DecidableEq, Repr

/-- Type `Message` (line 64). -/
structure Message where
  Payload : Payload
  deriving DecidableEq, Repr

/-- Type `GoActor` (line 26). -/
structure GoActor where
  self : Pid
  alive : Bool
  deriving DecidableEq, Repr

/-- Method `GoActor.Init` (line 31). -/
def GoActor.Init (ac : GoActor) (pid : Pid) : GoActor :=
  { ac with self := pid, alive := true }

/-- Method `GoActor.Running` (line 56): the result and the receiver after the call. -/
def GoActor.Running (ac : GoActor) : Bool × GoActor :=
  (ac.alive, ac)

/-- Method `GoActor.stop` (line 60). -/
def GoActor.stop (ac : GoActor) : GoActor :=
  { ac with alive := false }

/-! ## The control loop and its workers -/

/-- How one call of `actor.Receive` ends: it returns an `error`, or it panics and
`recover()` yields `r` (`none` is the nil interface). -/
inductive Outcome where
  | ret (err : GoError)
  | fault (r : Option Value)
  deriving DecidableEq, Repr

/-- The values an outcome carries live in the heap. -/
def Outcome.within (h : Heap) : Outcome → Bool
  | .ret (some e) => e.within h
  | .fault (some r) => r.within h
  | _ => true

/-- Program counter of one worker goroutine `runFn` (lines 156 to 173). -/
inductive WorkerPc where
  /-- blocked at `<-currWait` (line 164) -/
  | waitBaton
  /-- inside `actor.Receive(received)` (line 166) -/
  | inReceive
  /-- blocked at `stop <- err` (line 168) -/
  | sendStop (err : GoError)
  /-- in the deferred function, blocked at `stop <- makeError(r)` (line 160) -/
  | recovered (err : GoError)
  /-- blocked at `opsNextWait <- true` (line 171) -/
  | passBaton
  /-- the goroutine has returned -/
  | returned
  deriving DecidableEq, Repr

/-- One worker goroutine with the variables its closure captured. -/
structure Worker where
  received : Message
  currWait : Nat
  opsNextWait : Nat
  pc : WorkerPc
  deriving DecidableEq, Repr

/-- Program counter of `recvLoop` (lines 140 to 178). -/
inductive LoopPc where
  /-- blocked in the `select` (line 141) -/
  | select
  /-- took `case err := <-stop`, blocked at `p.errored <- err` (line 144) -/
  | sendErrored (err : GoError)
  /-- the send of line 144 is done, `actor.stop()` of line 145 is next -/
  | stopInternal
  /-- took `case <-p.stop`, `actor.stop()` of line 149 is next -/
  | stopExternal
  /-- the call `actor.stop()` has panicked; in the deferred function of line 133,
  blocked at `p.errored <- makeError(r)` (line 135) -/
  | deferSend (err : GoError)
  /-- the function `recvLoop` has returned -/
  | returned
  deriving DecidableEq, Repr

/-- The value `recvLoop` is blocked sending on `p.errored`, if it is. -/
def LoopPc.sending : LoopPc → Option GoError
  | .sendErrored err => some err
  | .deferSend err => some err
  | _ => none

/-- An event of the history of `actor.Receive`: worker `k` called it on a
message, it returned to worker `k`, or it panicked in worker `k`. -/
inductive Ev where
  | call (k : Nat) (m : Message)
  | ret (k : Nat) (err : GoError)
  | fault (k : Nat) (r : Option Value)
  deriving DecidableEq, Repr

/-- One actor at run time: the handle, the `GoActor` of the actor and how the
actor holds it, the local variables of `recvLoop`, the goroutines it started,
the allocator, and the history of what happened (`crashed`, `accepted`, `log`,
`erroredSent` are never read by a step).  The `chan bool` values made by
`recvLoop` are named by the order of their creation. -/
structure Proc where
  p : Pid
  /-- the `GoActor` that `Init` wrote -/
  actor : GoActor
  /-- the type of the actor embeds `*GoActor` and not `GoActor` -/
  pointer : Bool
  /-- the embedded `*GoActor` of the actor is nil at this moment (the host
  program has set it so), so that the methods of `GoActor` called on the actor
  panic -/
  detached : Bool
  /-- a call `actor.stop()` of `recvLoop` has panicked -/
  crashed : Bool
  heap : Heap
  loop : LoopPc
  /-- the variable `nextWait` -/
  nextWait : Nat
  /-- how many `chan bool` values `recvLoop` has made -/
  chans : Nat
  /-- the variable `firstWait` -/
  firstWait : Nat
  /-- the goroutine of line 129 is still blocked at `firstWait <- true` -/
  primer : Bool
  workers : List Worker
  /-- the messages taken from `p.recv`, oldest first -/
  accepted : List Message
  /-- the history of `actor.Receive` -/
  log : List Ev
  /-- the values whose send on `p.errored` by `recvLoop` has completed -/
  erroredSent : List GoError
  deriving DecidableEq, Repr

/-- One atomic step of the scheduler on one actor. -/
inductive Action where
  /-- rendezvous of `firstWait <- true` (line 130) with `<-currWait` of worker `k` -/
  | prime (k : Nat)
  /-- rendezvous of `opsNextWait <- true` of worker `i` with `<-currWait` of worker `k` -/
  | baton (i k : Nat)
  /-- the call `actor.Receive` of worker `k` ends with outcome `o`; `addr` is the
  next address of the heap at that moment -/
  | finish (k : Nat) (o : Outcome) (addr : Nat)
  /-- rendezvous of the send on `stop` of worker `k` with `case err := <-stop` -/
  | report (k : Nat)
  /-- rendezvous of a send `p.recv <- m` with `case received := <-p.recv` -/
  | accept (m : Message)
  /-- rendezvous of a send `p.stop <- err` with `case <-p.stop` -/
  | stopReq (err : GoError)
  /-- rendezvous of `p.errored <- err` (line 144, or line 135) with a receive on
  `p.errored` -/
  | watched
  /-- the call `actor.stop()` and the `return` (lines 145 and 146, or 149 and 150) -/
  | halt
  /-- the case `<-time.After(5*time.Second)` (line 175) -/
  | idle
  /-- the host program sets the embedded `*GoActor` of the actor to nil -/
  | detach
  /-- the host program sets the embedded `*GoActor` of the actor back to the
  `GoActor` that `Init` wrote -/
  | attach
  /-- the call `actor.stop()` (line 145 or 149) panics on the nil `*GoActor` and
  the deferred function of line 133 recovers; `addr` is the next address of the
  heap at that moment -/
  | stopFault (addr : Nat)
  deriving DecidableEq, Repr

/-- The text of the runtime error of a nil pointer dereference. -/
def nilText : String :=
  "runtime error: invalid memory address or nil pointer dereference"

/-- The value `recover()` yields after a method of `GoActor` was called through
a nil `*GoActor`: the runtime error of a nil pointer dereference. -/
def nilDereference : Value :=
  .err (.custom "runtime.errorString" (.returns nilText) none)

/-- Where a worker goes when its call of `actor.Receive` ends (lines 158 to 171):
after a nil result to the send of line 171, after a non-nil result to the send
of line 168, after a panic into the deferred function, which returns at once
when `recover()` is nil and else goes to the send of line 160. -/
def afterReceive (o : Outcome) (h : Heap) : WorkerPc :=
  match o with
  | .ret none => .passBaton
  | .ret (some e) => .sendStop (some e)
  | .fault none => .returned
  | .fault (some r) => .recovered (makeError h r).1

/-- The heap after the worker has dealt with the outcome of `actor.Receive`:
`makeError` allocates when a non-nil value was recovered. -/
def heapAfter (o : Outcome) (h : Heap) : Heap :=
  match o with
  | .fault (some r) => (makeError h r).2
  | _ => h

/-- The event a finished call of `actor.Receive` leaves in the history. -/
def Outcome.event (o : Outcome) (k : Nat) : Ev :=
  match o with
  | .ret err => .ret k err
  | .fault r => .fault k r

/-- The value a worker blocked at a send on `stop` hands to `recvLoop`, and where
the worker goes next: from line 168 on to line 171, from line 160 to the end of
the deferred function. -/
def afterReport : WorkerPc → Option (GoError × WorkerPc)
  | .sendStop err => some (err, .passBaton)
  | .recovered err => some (err, .returned)
  | _ => none

/-- Replace the program counter of worker `k`. -/
def Proc.setPc (s : Proc) (k : Nat) (w : Worker) (pc : WorkerPc) : List Worker :=
  s.workers.set k { w with pc := pc }

/-- The transition function of `recvLoop` (lines 125 to 179) and of the
goroutines it starts: `none` when the action is not enabled.  The deferred
function of line 133 runs when `recvLoop` panics; of its statements only the
interface call `actor.stop()` can, when the `*GoActor` it goes through is nil
(the channels are never closed and `fmt.Println` recovers what it calls). -/
def Proc.step (s : Proc) : Action → Option Proc
  | .prime k =>
    match s.workers[k]? with
    | none => none
    | some w =>
      if s.primer = true ∧ w.pc = .waitBaton ∧ w.currWait = s.firstWait then
        some { s with
          primer := false
          workers := s.setPc k w .inReceive
          log := s.log ++ [Ev.call k w.received] }
      else none
  | .baton i k =>
    match s.workers[i]?, s.workers[k]? with
    | some v, some w =>
      if v.pc = .passBaton ∧ w.pc = .waitBaton ∧ w.currWait = v.opsNextWait ∧ i ≠ k then
        some { s with
          workers := (s.workers.set i { v with pc := .returned }).set k { w with pc := .inReceive }
          log := s.log ++ [Ev.call k w.received] }
      else none
    | _, _ => none
  | .finish k o addr =>
    match s.workers[k]? with
    | none => none
    | some w =>
      if w.pc = .inReceive ∧ s.heap.next ≤ addr ∧ o.within { next := addr } = true then
        some { s with
          workers := s.setPc k w (afterReceive o { next := addr })
          heap := heapAfter o { next := addr }
          log := s.log ++ [o.event k] }
      else none
  | .report k =>
    match s.workers[k]? with
    | none => none
    | some w =>
      if s.loop = .select then
        match afterReport w.pc with
        | some (err, pc) => some { s with loop := .sendErrored err, workers := s.setPc k w pc }
        | none => none
      else none
  | .accept m =>
    if s.loop = .select then
      some { s with
        nextWait := s.chans
        chans := s.chans + 1
        workers := s.workers ++
          [{ received := m, currWait := s.nextWait, opsNextWait := s.chans, pc := .waitBaton }]
        accepted := s.accepted ++ [m] }
    else none
  | .stopReq _ =>
    if s.loop = .select then some { s with loop := .stopExternal } else none
  | .watched =>
    match s.loop with
    | .sendErrored err =>
      some { s with loop := .stopInternal, erroredSent := s.erroredSent ++ [err] }
    | .deferSend err =>
      some { s with loop := .returned, erroredSent := s.erroredSent ++ [err] }
    | _ => none
  | .halt =>
    if (s.loop = .stopInternal ∨ s.loop = .stopExternal) ∧ s.detached = false then
      some { s with loop := .returned, actor := s.actor.stop }
    else none
  | .idle =>
    if s.loop = .select then some s else none
  | .detach =>
    if s.pointer = true then some { s with detached := true } else none
  | .attach =>
    if s.pointer = true then some { s with detached := false } else none
  | .stopFault addr =>
    if (s.loop = .stopInternal ∨ s.loop = .stopExternal) ∧ s.detached = true ∧
        s.heap.next ≤ addr then
      some { s with
        loop := .deferSend (makeError { next := addr } nilDereference).1
        crashed := true
        heap := (makeError { next := addr } nilDereference).2 }
    else none

/-- Replay a schedule. -/
def Proc.run (s : Proc) : List Action → Option Proc
  | [] => some s
  | a :: as => (s.step a).bind fun t => t.run as

/-- Function `Spawn` (line 112) up to the first `select` of `recvLoop`, for an
actor whose type embeds `GoActor` (`pointer` false) or `*GoActor` (`pointer`
true): the three channels of the handle are `c`, `c + 1`, `c + 2`,
`actor.Init(p)` has run, `recvLoop` has made the first `chan bool` and started
the goroutine that sends on it.  `Init`, `Running` and `stop` of the actor are
the methods of `GoActor`. -/
def SpawnAs (pointer : Bool) (actor : GoActor) (c : Nat) : Proc :=
  { p := ⟨c, c + 1, c + 2⟩
    actor := actor.Init ⟨c, c + 1, c + 2⟩
    pointer := pointer
    detached := false
    crashed := false
    heap := { next := 0 }
    loop := .select
    nextWait := 0
    chans := 1
    firstWait := 0
    primer := true
    workers := []
    accepted := []
    log := []
    erroredSent := [] }

/-- Function `Spawn` (line 112) for an actor whose type embeds `GoActor` itself,
as the comment of line 12 asks. -/
def Spawn (actor : GoActor) (c : Nat) : Proc :=
  SpawnAs false actor c

/-- Method `Pid.Send` (line 85) on the handle of an actor: the step at which the
loop of that actor takes the send of line 87. -/
def Pid.Send (_p : Pid) (msg : Payload) : Action :=
  .accept { Payload := msg }

/-- Method `Pid.Stop` (line 92) on the handle of an actor: the step at which the
loop of that actor takes the nil sent by the goroutine of line 94.  The send on
`stopped` that follows involves nobody else. -/
def Pid.Stop (_p : Pid) : Action :=
  .stopReq none

/-! ## Supervision: `StartChild` and `StartLink` -/

/-- Program counter of the goroutine of `Pid.Watch` (lines 104 to 107). -/
inductive WatchPc where
  /-- blocked at `err := <-p.errored` (line 105) -/
  | waiting
  /-- blocked at `errChan <- err` (line 106) -/
  | holding (err : GoError)
  | returned
  deriving DecidableEq, Repr

/-- Program counter of the goroutine of `StartChild` (lines 39 to 42) or of
`StartLink` (lines 49 to 52). -/
inductive RelayPc where
  /-- blocked at `err := <-watch` (line 40 or 50) -/
  | waiting
  /-- blocked at the send of line 41 or of line 51 -/
  | holding (err : GoError)
  | returned
  deriving DecidableEq, Repr

/-- Which of the two methods started the second actor. -/
inductive Kind where
  | child
  | link
  deriving DecidableEq, Repr

/-- A parent actor, the actor it started with `StartChild` or `StartLink`, and
the two goroutines between them.  `mailboxSent` and `stopSent` are history: the
sends of the relay on `ac.self.recv` and on `ac.self.stop` that have completed. -/
structure System where
  kind : Kind
  parent : Proc
  child : Proc
  /-- the variable `childPid` (or `linkPid`) -/
  childPid : Pid
  watch : WatchPc
  relay : RelayPc
  mailboxSent : List Message
  stopSent : List GoError
  deriving DecidableEq, Repr

/-- One atomic step of the scheduler on the system. -/
inductive SysAction where
  /-- a step of the parent actor; its partner in a rendezvous is outside the system -/
  | parent (a : Action)
  /-- a step of the started actor; its partner in a rendezvous is outside the system -/
  | child (a : Action)
  /-- rendezvous of `p.errored <- err` of the started actor with line 105 -/
  | watchRecv
  /-- rendezvous of `errChan <- err` (line 106) with `err := <-watch` -/
  | watchSend
  /-- rendezvous of the send of line 41 (or 51) with the `select` of the parent -/
  | relaySend
  deriving DecidableEq, Repr

/-- The heap two actors of one program share: what either has allocated is in
use. -/
def Heap.join (a b : Heap) : Heap :=
  { next := max a.next b.next }

/-- An actor about to take a step of its own in a program with a second actor:
its allocator knows what the other actor has allocated. -/
def Proc.beside (s other : Proc) : Proc :=
  { s with heap := s.heap.join other.heap }

/-- The message of line 41. -/
def notification (err : GoError) (childPid : Pid) : Message :=
  { Payload := .notice { err := err, Sender := childPid } }

/-- The transition function of the system. -/
def System.step (s : System) : SysAction → Option System
  | .parent a => ((s.parent.beside s.child).step a).map fun t => { s with parent := t }
  | .child a => ((s.child.beside s.parent).step a).map fun t => { s with child := t }
  | .watchRecv =>
    match s.watch, s.child.loop.sending with
    | .waiting, some err =>
      if s.childPid.errored = s.child.p.errored then
        (s.child.step .watched).map fun t => { s with child := t, watch := .holding err }
      else none
    | _, _ => none
  | .watchSend =>
    match s.watch, s.relay with
    | .holding err, .waiting => some { s with watch := .returned, relay := .holding err }
    | _, _ => none
  | .relaySend =>
    match s.relay, s.kind with
    | .holding err, .child =>
      if s.parent.actor.self.recv = s.parent.p.recv then
        (s.parent.step (.accept (notification err s.childPid))).map fun t =>
          { s with
            parent := t
            relay := .returned
            mailboxSent := s.mailboxSent ++ [notification err s.childPid] }
      else none
    | .holding err, .link =>
      if s.parent.actor.self.stop = s.parent.p.stop then
        (s.parent.step (.stopReq err)).map fun t =>
          { s with parent := t, relay := .returned, stopSent := s.stopSent ++ [err] }
      else none
    | _, _ => none

/-- Replay a schedule on the system. -/
def System.run (s : System) : List SysAction → Option System
  | [] => some s
  | a :: as => (s.step a).bind fun t => t.run as

/-- What `StartChild` and `StartLink` have in common: `Spawn(actor)`, then
`Watch()` on the new handle, then the relay goroutine.  `pointer` says whether
the type of the started actor embeds `*GoActor`. -/
def start (kind : Kind) (parent : Proc) (pointer : Bool) (actor : GoActor) (c : Nat) :
    System :=
  { kind := kind
    parent := parent
    child := SpawnAs pointer actor c
    childPid := (SpawnAs pointer actor c).p
    watch := .waiting
    relay := .waiting
    mailboxSent := []
    stopSent := [] }

/-- Method `GoActor.StartChild` (line 36), called on the actor of `parent`: the
system it leaves behind and the handle it returns. -/
def StartChild (parent : Proc) (pointer : Bool) (actor : GoActor) (c : Nat) : System × Pid :=
  (start .child parent pointer actor c, (SpawnAs pointer actor c).p)

/-- Method `GoActor.StartLink` (line 46), called on the actor of `parent`: the
system it leaves behind and the handle it returns. -/
def StartLink (parent : Proc) (pointer : Bool) (actor : GoActor) (c : Nat) : System × Pid :=
  (start .link parent pointer actor c, (SpawnAs pointer actor c).p)

/-! ## Reading the history -/

/-- State of the monitor that reads the history of `actor.Receive`. -/
inductive Phase where
  /-- the calls `0 .. n-1` have all returned and no call is in progress -/
  | quiet (n : Nat)
  /-- the calls `0 .. n-1` have all returned and call `n` is in progress -/
  | busy (n : Nat)
  /-- the calls `0 .. n-1` have all returned and call `n` has panicked -/
  | broken (n : Nat)
  /-- the history is not sequential -/
  | bad
  deriving DecidableEq, Repr

/-- One move of the monitor: call `n` may start only when the calls before it
have returned, only the call in progress may end, and nothing follows a panic. -/
def Phase.next : Phase → Ev → Phase
  | .quiet n, .call k _ => if k = n then .busy n else .bad
  | .busy n, .ret k _ => if k = n then .quiet (n + 1) else .bad
  | .busy n, .fault k _ => if k = n then .broken n else .bad
  | _, _ => .bad

/-- The monitor run over a history, oldest event first. -/
def phase (log : List Ev) : Phase :=
  log.foldl Phase.next (.quiet 0)

/-- How many calls of `actor.Receive` the monitor has seen start. -/
def Phase.started : Phase → Nat
  | .quiet n => n
  | .busy n => n + 1
  | .broken n => n + 1
  | .bad => 0

/-- The messages `actor.Receive` was called on, in the order of the calls. -/
def calls (log : List Ev) : List Message :=
  log.filterMap fun
    | .call _ m => some m
    | _ => none

/-- How many calls of `actor.Receive` have ended, by return or by panic. -/
def ended (log : List Ev) : Nat :=
  (log.filter fun
    | .call _ _ => false
    | _ => true).length

/-- The error `e` is a non-nil error that `actor.Receive` returned, or the error
`makeError` built from a non-nil value recovered from a panic of
`actor.Receive`. -/
def Reported (log : List Ev) (e : GoError) : Prop :=
  e ≠ none ∧
    ((∃ k, Ev.ret k e ∈ log) ∨ ∃ k r h, Ev.fault k (some r) ∈ log ∧ e = (makeError h r).1)

/-- A call of `actor.Receive` has panicked. -/
def Faulted (log : List Ev) : Prop :=
  ∃ k r, Ev.fault k r ∈ log

/-- The program counters the worker of the latest call may be at, by the state
of the monitor. -/
def lastOk : Phase → WorkerPc → Prop
  | .quiet _, pc => pc = .passBaton ∨ ∃ e, pc = .sendStop e
  | .busy _, pc => pc = .inReceive
  | .broken _, pc => pc = .returned ∨ ∃ e, pc = .recovered e
  | .bad, _ => False

/-- Worker `i` waits on channel `i` and sends on channel `i + 1`, it holds the
`i`-th accepted message, and `nextWait` is the channel of the last worker. -/
structure Wired (s : Proc) : Prop where
  chans : s.chans = s.workers.length + 1
  nextWait : s.nextWait = s.workers.length
  firstWait : s.firstWait = 0
  accepted : s.accepted.length = s.workers.length
  worker : ∀ i w, s.workers[i]? = some w →
    w.currWait = i ∧ w.opsNextWait = i + 1 ∧ s.accepted[i]? = some w.received

/-- The history is sequential and the workers agree with it: the workers of
calls not yet started wait for the baton, the workers of earlier calls have
returned, and only the worker of the latest call is anywhere else. -/
structure Ordered (s : Proc) : Prop where
  ok : phase s.log ≠ .bad
  le : (phase s.log).started ≤ s.workers.length
  primer : s.primer = true ↔ (phase s.log).started = 0
  waiting : ∀ i w, s.workers[i]? = some w → (phase s.log).started ≤ i → w.pc = .waitBaton
  gone : ∀ i w, s.workers[i]? = some w → i + 1 < (phase s.log).started → w.pc = .returned
  last : ∀ i w, s.workers[i]? = some w → i + 1 = (phase s.log).started →
    lastOk (phase s.log) w.pc
  calls : calls s.log = s.accepted.take (phase s.log).started


/-- What `recvLoop` has done by each of its program counters: nothing is sent
on `p.errored` before the send of line 144 completes, the actor is marked not
alive only by an `actor.stop()` that returns, every value sent from line 144 is
a reported failure of `actor.Receive`, and the deferred function is reached
only by a panic of `actor.stop()`, which needs an embedded `*GoActor`. -/
structure Settled (s : Proc) : Prop where
  self : s.actor.self = s.p
  ptr : s.detached = true → s.pointer = true
  crash : s.crashed = true → s.pointer = true
  nonnil : ∀ e ∈ s.erroredSent, e ≠ none
  select : s.loop = .select → s.erroredSent = [] ∧ s.actor.alive = true
  sending : ∀ e, s.loop = .sendErrored e →
    s.erroredSent = [] ∧ s.actor.alive = true ∧ Reported s.log e
  internal : s.loop = .stopInternal →
    s.actor.alive = true ∧ ∃ e, s.erroredSent = [e] ∧ Reported s.log e
  external : s.loop = .stopExternal → s.erroredSent = [] ∧ s.actor.alive = true
  deferring : ∀ e, s.loop = .deferSend e →
    s.crashed = true ∧ s.actor.alive = true ∧ e ≠ none ∧ s.erroredSent.length ≤ 1
  returned : s.loop = .returned → s.erroredSent.length ≤ 2 ∧
    (s.crashed = false → s.actor.alive = false ∧
      (s.erroredSent = [] ∨ ∃ e, s.erroredSent = [e] ∧ Reported s.log e))
  pending : ∀ (i : Nat) (w : Worker) (err : GoError) (pc : WorkerPc),
    s.workers[i]? = some w → afterReport w.pc = some (err, pc) →
    Reported s.log err


/-- The three invariants of one actor. -/
structure Inv (s : Proc) : Prop where
  wired : Wired s
  ordered : Ordered s
  settled : Settled s


/-- How many calls of `actor.Receive` the monitor has seen end. -/
def Phase.finished : Phase → Nat
  | .quiet n => n
  | .busy n => n
  | .broken n => n + 1
  | .bad => 0


/-- What the loop of an actor has done once it has taken the case `<-p.stop`
(line 147): it has sent nothing on `p.errored` and is about to call
`actor.stop()`, or has returned, or is in its deferred function, blocked at the
send of the error made from the nil dereference of `actor.stop()`; or the
deferred function has sent that error and the loop has returned. -/
def Stopped (s : Proc) : Prop :=
  (s.erroredSent = [] ∧
    (s.loop = .stopExternal ∨ s.loop = .returned ∨
      ∃ a, s.loop = .deferSend (some (.errorString a nilText)))) ∨
  ∃ a, s.erroredSent = [some (.errorString a nilText)] ∧ s.loop = .returned ∧
    s.crashed = true

/-- The invariant of a parent with a started actor: the goroutine of `Watch` and
the relay hold nothing before the loop of the started actor has sent on its
`p.errored`, what they hold afterwards is a value that loop has sent, and the
relay has sent nothing before it returns and exactly its one message or stop
value afterwards. -/
structure Linked (s : System) : Prop where
  parent : Settled s.parent
  child : Settled s.child
  pid : s.childPid = s.child.p
  quiet : s.child.erroredSent = [] → s.watch = .waiting
  watchW : s.watch = .waiting → s.relay = .waiting
  watchH : ∀ e, s.watch = .holding e → s.relay = .waiting ∧ e ∈ s.child.erroredSent
  relayW : s.relay = .waiting → s.mailboxSent = [] ∧ s.stopSent = []
  relayH : ∀ e, s.relay = .holding e →
    s.watch = .returned ∧ s.mailboxSent = [] ∧ s.stopSent = [] ∧ e ∈ s.child.erroredSent
  relayR : s.relay = .returned → s.watch = .returned ∧
    ∃ e, e ∈ s.child.erroredSent ∧
      ((s.kind = .child ∧ s.mailboxSent = [notification e s.childPid] ∧ s.stopSent = []) ∨
        (s.kind = .link ∧ s.mailboxSent = [] ∧ s.stopSent = [e] ∧ Stopped s.parent))
/-! ## Concrete inputs -/

/-- The zero value of `GoActor`. -/
def zeroActor : GoActor := ⟨⟨0, 0, 0⟩, false⟩

/-- Two messages of a host program. -/
def msgA : Message := ⟨.data 1⟩

def msgB : Message := ⟨.data 2⟩

/-- An error value of a host program. -/
def boom : ErrVal := .custom "main.MyErr" (.returns "boom") none

/-- A schedule in which two messages are accepted and both calls of `Receive`
return nil. -/
def twoCalls : List Action :=
  [.accept msgA, .accept msgB, .prime 0, .finish 0 (.ret none) 0, .baton 0 1,
    .finish 1 (.ret none) 0]

/-- The state at the end of `twoCalls`. -/
def afterTwoCalls : Proc :=
  ((Spawn zeroActor 1).run twoCalls).getD (Spawn zeroActor 1)


/-- The state a schedule leads to from a freshly spawned zero actor (the start
state itself if the schedule is not enabled). -/
def stateAfter (acts : List Action) : Proc :=
  ((Spawn zeroActor 1).run acts).getD (Spawn zeroActor 1)

/-- One message is accepted, `Receive` returns the error `boom`, the loop takes
the report. -/
def failureTaken : List Action :=
  [.accept msgA, .prime 0, .finish 0 (.ret (some boom)) 0, .report 0]

/-- Two messages are accepted, `Receive` returns `boom` on the first, the loop
takes the report. -/
def failureWithBacklog : List Action :=
  [.accept msgA, .accept msgB, .prime 0, .finish 0 (.ret (some boom)) 0, .report 0]

/-- Two messages are accepted, then the loop takes a `Stop()` request and
returns. -/
def stoppedWithBacklog : List Action :=
  [.accept msgA, .accept msgB, .stopReq none, .halt]

/-- One message is accepted and `Receive` panics on it with the string
`"boom"`. -/
def panicRaised : List Action :=
  [.accept msgA, .prime 0, .finish 0 (.fault (some (.str "boom"))) 7]

/-- After `panicRaised` a second message is accepted and the loop then takes the
report of the panic. -/
def panicWithBacklog : List Action :=
  panicRaised ++ [.accept msgB, .report 0]


/-- The started actor accepts one message, `Receive` returns `boom`, its loop
takes the report, the goroutine of `Watch` and the relay pass the error on. -/
def childFails : List SysAction :=
  [.child (.accept msgA), .child (.prime 0), .child (.finish 0 (.ret (some boom)) 0),
    .child (.report 0), .watchRecv, .watchSend, .relaySend]

/-- The started actor accepts one message and begins `Receive`, its loop takes
a `Stop()` request and returns, and only then `Receive` returns `boom`. -/
def childStoppedThenFails : List SysAction :=
  [.child (.accept msgA), .child (.prime 0), .child (.stopReq none), .child .halt,
    .child (.finish 0 (.ret (some boom)) 0)]

/-- A second error value of a host program. -/
def bang : ErrVal := .custom "main.MyErr" (.returns "bang") none

/-- The started actor accepts two messages; `Receive` returns `boom` on the
first, the loop takes the report and the error reaches the parent through
`Watch` and the relay; the first worker then passes the baton and `Receive`
returns `bang` on the second message. -/
def childFailsTwice : List SysAction :=
  [.child (.accept msgA), .child (.accept msgB), .child (.prime 0),
    .child (.finish 0 (.ret (some boom)) 0), .child (.report 0), .watchRecv, .watchSend,
    .relaySend, .child (.baton 0 1), .child (.finish 1 (.ret (some bang)) 0)]

/-- The state a schedule leads to from a freshly spawned parent that has just
called `StartLink` (the start state itself if the schedule is not enabled). -/
def linkAfter (acts : List SysAction) : System :=
  ((StartLink (Spawn zeroActor 1) false zeroActor 10).1.run acts).getD
    (StartLink (Spawn zeroActor 1) false zeroActor 10).1

/-- The same for `StartChild`. -/
def childAfter (acts : List SysAction) : System :=
  ((StartChild (Spawn zeroActor 1) false zeroActor 10).1.run acts).getD
    (StartChild (Spawn zeroActor 1) false zeroActor 10).1


/-- The state a schedule leads to from a freshly spawned zero actor whose type
embeds `*GoActor` (the start state itself if the schedule is not enabled). -/
def pointerAfter (acts : List Action) : Proc :=
  ((SpawnAs true zeroActor 1).run acts).getD (SpawnAs true zeroActor 1)

/-- An actor whose type embeds `*GoActor` accepts one message; its `Receive`
sets the embedded pointer to nil and returns `boom`; the loop takes the report
and delivers the error (line 144); `actor.stop()` panics (line 145); the
deferred function delivers the error made from the panic (line 135). -/
def stopPanics : List Action :=
  [.accept msgA, .prime 0, .detach, .finish 0 (.ret (some boom)) 0, .report 0, .watched,
    .stopFault 0, .watched]

/-- An error value of a host program whose type also implements
`fmt.Formatter`. -/
def fancy : ErrVal := .custom "main.Fancy" (.returns "boom") (some (.returns "fancy boom"))

/-- An error value of a host program whose `Error()` panics with the string
`"oops"`. -/
def shaky : ErrVal := .custom "main.Shaky" (.panics false "oops") none

/-- The started actor accepts one message and `Receive` returns `boom` on it. -/
def childReturnsBoom : List SysAction :=
  [.child (.accept msgA), .child (.prime 0), .child (.finish 0 (.ret (some boom)) 0)]
/-! ## What each step does -/

theorem step_prime {s t : Proc} {k : Nat} (h : s.step (.prime k) = some t) :
    ∃ w, s.workers[k]? = some w ∧ s.primer = true ∧ w.pc = .waitBaton ∧
      w.currWait = s.firstWait ∧
      t = { s with
        primer := false
        workers := s.workers.set k { w with pc := .inReceive }
        log := s.log ++ [Ev.call k w.received] } := by
  simp only [Proc.step] at h
  split at h
  · simp at h
  · next w hw =>
    split at h
    · next hc => exact ⟨w, hw, hc.1, hc.2.1, hc.2.2, by simpa [Proc.setPc, eq_comm] using h⟩
    · simp at h

theorem step_baton {s t : Proc} {i k : Nat} (h : s.step (.baton i k) = some t) :
    ∃ v w, s.workers[i]? = some v ∧ s.workers[k]? = some w ∧ v.pc = .passBaton ∧
      w.pc = .waitBaton ∧ w.currWait = v.opsNextWait ∧ i ≠ k ∧
      t = { s with
        workers := (s.workers.set i { v with pc := .returned }).set k { w with pc := .inReceive }
        log := s.log ++ [Ev.call k w.received] } := by
  simp only [Proc.step] at h
  split at h
  · next v w hv hw =>
    split at h
    · next hc =>
      exact ⟨v, w, hv, hw, hc.1, hc.2.1, hc.2.2.1, hc.2.2.2, by simpa [eq_comm] using h⟩
    · simp at h
  · simp at h

theorem step_finish {s t : Proc} {k : Nat} {o : Outcome} {addr : Nat}
    (h : s.step (.finish k o addr) = some t) :
    ∃ w, s.workers[k]? = some w ∧ w.pc = .inReceive ∧ s.heap.next ≤ addr ∧
      o.within { next := addr } = true ∧
      t = { s with
        workers := s.workers.set k { w with pc := afterReceive o { next := addr } }
        heap := heapAfter o { next := addr }
        log := s.log ++ [o.event k] } := by
  simp only [Proc.step] at h
  split at h
  · simp at h
  · next w hw =>
    split at h
    · next hc => exact ⟨w, hw, hc.1, hc.2.1, hc.2.2, by simpa [Proc.setPc, eq_comm] using h⟩
    · simp at h

theorem step_report {s t : Proc} {k : Nat} (h : s.step (.report k) = some t) :
    ∃ w err pc, s.workers[k]? = some w ∧ s.loop = .select ∧ afterReport w.pc = some (err, pc) ∧
      t = { s with loop := .sendErrored err, workers := s.workers.set k { w with pc := pc } } := by
  simp only [Proc.step] at h
  split at h
  · simp at h
  · next w hw =>
    split at h
    · next hc =>
      split at h
      · next err pc hr => exact ⟨w, err, pc, hw, hc, hr, by simpa [Proc.setPc, eq_comm] using h⟩
      · simp at h
    · simp at h

theorem step_accept {s t : Proc} {m : Message} (h : s.step (.accept m) = some t) :
    s.loop = .select ∧
      t = { s with
        nextWait := s.chans
        chans := s.chans + 1
        workers := s.workers ++
          [{ received := m, currWait := s.nextWait, opsNextWait := s.chans, pc := .waitBaton }]
        accepted := s.accepted ++ [m] } := by
  simp only [Proc.step] at h
  split at h
  · next hc => exact ⟨hc, by simpa [eq_comm] using h⟩
  · simp at h

theorem step_stopReq {s t : Proc} {err : GoError} (h : s.step (.stopReq err) = some t) :
    s.loop = .select ∧ t = { s with loop := .stopExternal } := by
  simp only [Proc.step] at h
  split at h
  · next hc => exact ⟨hc, by simpa [eq_comm] using h⟩
  · simp at h

theorem step_watched {s t : Proc} (h : s.step .watched = some t) :
    (∃ err, s.loop = .sendErrored err ∧
      t = { s with loop := .stopInternal, erroredSent := s.erroredSent ++ [err] }) ∨
    (∃ err, s.loop = .deferSend err ∧
      t = { s with loop := .returned, erroredSent := s.erroredSent ++ [err] }) := by
  simp only [Proc.step] at h
  split at h
  · next err hl => exact Or.inl ⟨err, hl, by simpa [eq_comm] using h⟩
  · next err hl => exact Or.inr ⟨err, hl, by simpa [eq_comm] using h⟩
  · simp at h

theorem step_halt {s t : Proc} (h : s.step .halt = some t) :
    (s.loop = .stopInternal ∨ s.loop = .stopExternal) ∧ s.detached = false ∧
      t = { s with loop := .returned, actor := s.actor.stop } := by
  simp only [Proc.step] at h
  split at h
  · next hc => exact ⟨hc.1, hc.2, by simpa [eq_comm] using h⟩
  · simp at h

theorem step_detach {s t : Proc} (h : s.step .detach = some t) :
    s.pointer = true ∧ t = { s with detached := true } := by
  simp only [Proc.step] at h
  split at h
  · next hc => exact ⟨hc, by simpa [eq_comm] using h⟩
  · simp at h

theorem step_attach {s t : Proc} (h : s.step .attach = some t) :
    s.pointer = true ∧ t = { s with detached := false } := by
  simp only [Proc.step] at h
  split at h
  · next hc => exact ⟨hc, by simpa [eq_comm] using h⟩
  · simp at h

theorem step_stopFault {s t : Proc} {addr : Nat} (h : s.step (.stopFault addr) = some t) :
    (s.loop = .stopInternal ∨ s.loop = .stopExternal) ∧ s.detached = true ∧
      s.heap.next ≤ addr ∧
      t = { s with
        loop := .deferSend (makeError { next := addr } nilDereference).1
        crashed := true
        heap := (makeError { next := addr } nilDereference).2 } := by
  simp only [Proc.step] at h
  split at h
  · next hc => exact ⟨hc.1, hc.2.1, hc.2.2, by simpa [eq_comm] using h⟩
  · simp at h

theorem step_idle {s t : Proc} (h : s.step .idle = some t) : s.loop = .select ∧ t = s := by
  simp only [Proc.step] at h
  split at h
  · next hc => exact ⟨hc, by simpa [eq_comm] using h⟩
  · simp at h

/-! ## The history monitor on a growing history -/

theorem phase_snoc (log : List Ev) (e : Ev) : phase (log ++ [e]) = (phase log).next e := by
  simp [phase, List.foldl_append]

theorem calls_snoc_call (log : List Ev) (k : Nat) (m : Message) :
    calls (log ++ [Ev.call k m]) = calls log ++ [m] := by
  simp [calls, List.filterMap_append]

theorem calls_snoc_event (log : List Ev) (o : Outcome) (k : Nat) :
    calls (log ++ [o.event k]) = calls log := by
  cases o <;> simp [calls, List.filterMap_append, Outcome.event]

/-! ## Invariant 1: the baton channels form a chain -/

theorem wired_spawn (b : Bool) (actor : GoActor) (c : Nat) : Wired (SpawnAs b actor c) := by
  constructor <;> simp [SpawnAs]

theorem getElem?_set_pc {ws : List Worker} {k i : Nat} {w x : Worker} {pc : WorkerPc}
    (hk : ws[k]? = some w) (hi : (ws.set k { w with pc := pc })[i]? = some x) :
    ∃ y, ws[i]? = some y ∧ x.received = y.received ∧ x.currWait = y.currWait ∧
      x.opsNextWait = y.opsNextWait ∧ (i ≠ k → x = y) ∧ (i = k → x.pc = pc) := by
  rw [List.getElem?_set] at hi
  split at hi
  · next h =>
    subst h
    split at hi
    · simp at hi; subst hi; exact ⟨w, hk, rfl, rfl, rfl, by simp, by simp⟩
    · simp at hi
  · next h => exact ⟨x, hi, rfl, rfl, rfl, fun _ => rfl, fun h2 => absurd h2.symm h⟩

theorem wired_set {s : Proc} (hs : Wired s) {k : Nat} {w : Worker} {pc : WorkerPc}
    (hk : s.workers[k]? = some w) (t : Proc)
    (h1 : t.chans = s.chans) (h2 : t.nextWait = s.nextWait) (h3 : t.firstWait = s.firstWait)
    (h4 : t.accepted = s.accepted) (h5 : t.workers = s.workers.set k { w with pc := pc }) :
    Wired t := by
  refine ⟨by simp [h1, h5, hs.chans], by simp [h2, h5, hs.nextWait], by simp [h3, hs.firstWait],
    by simp [h4, h5, hs.accepted], ?_⟩
  intro i x hx
  rw [h5] at hx
  obtain ⟨y, hy, e1, e2, e3, -, -⟩ := getElem?_set_pc hk hx
  have := hs.worker i y hy
  rw [h4, e1, e2, e3]
  exact this

theorem wired_step {s t : Proc} {a : Action} (hs : Wired s) (h : s.step a = some t) :
    Wired t := by
  cases a with
  | prime k =>
    obtain ⟨w, hw, -, -, -, rfl⟩ := step_prime h
    exact wired_set hs hw _ rfl rfl rfl rfl rfl
  | baton i k =>
    obtain ⟨v, w, hv, hw, -, -, -, hik, rfl⟩ := step_baton h
    have hmid : Wired { s with workers := s.workers.set i { v with pc := .returned } } :=
      wired_set hs hv _ rfl rfl rfl rfl rfl
    refine wired_set hmid (k := k) (w := w) ?_ _ rfl rfl rfl rfl rfl
    simp only
    rw [List.getElem?_set_ne hik]
    exact hw
  | finish k o addr =>
    obtain ⟨w, hw, -, -, -, rfl⟩ := step_finish h
    exact wired_set hs hw _ rfl rfl rfl rfl rfl
  | report k =>
    obtain ⟨w, err, pc, hw, -, -, rfl⟩ := step_report h
    exact wired_set hs hw _ rfl rfl rfl rfl rfl
  | accept m =>
    obtain ⟨-, rfl⟩ := step_accept h
    refine ⟨by simp [hs.chans], by simp [hs.chans], hs.firstWait, by simp [hs.accepted], ?_⟩
    intro i x hx
    simp only at hx ⊢
    rcases Nat.lt_or_ge i s.workers.length with hlt | hge
    · rw [List.getElem?_append_left hlt] at hx
      have := hs.worker i x hx
      rw [List.getElem?_append_left (by rw [hs.accepted]; exact hlt)]
      exact this
    · rw [List.getElem?_append_right hge] at hx
      have h0 : i - s.workers.length = 0 := by
        by_contra hne
        have : (1 : Nat) ≤ i - s.workers.length := Nat.one_le_iff_ne_zero.mpr hne
        rw [List.getElem?_eq_none (by simpa using this)] at hx
        simp at hx
      rw [h0] at hx
      simp at hx
      subst hx
      have hi : i = s.workers.length := by omega
      subst hi
      refine ⟨hs.nextWait, hs.chans, ?_⟩
      rw [List.getElem?_append_right (by rw [hs.accepted])]
      simp [hs.accepted]
  | stopReq err =>
    obtain ⟨-, rfl⟩ := step_stopReq h
    exact ⟨hs.chans, hs.nextWait, hs.firstWait, hs.accepted, hs.worker⟩
  | watched =>
    rcases step_watched h with ⟨err, -, rfl⟩ | ⟨err, -, rfl⟩ <;>
      exact ⟨hs.chans, hs.nextWait, hs.firstWait, hs.accepted, hs.worker⟩
  | halt =>
    obtain ⟨-, -, rfl⟩ := step_halt h
    exact ⟨hs.chans, hs.nextWait, hs.firstWait, hs.accepted, hs.worker⟩
  | idle =>
    obtain ⟨-, rfl⟩ := step_idle h
    exact hs
  | detach =>
    obtain ⟨-, rfl⟩ := step_detach h
    exact ⟨hs.chans, hs.nextWait, hs.firstWait, hs.accepted, hs.worker⟩
  | attach =>
    obtain ⟨-, rfl⟩ := step_attach h
    exact ⟨hs.chans, hs.nextWait, hs.firstWait, hs.accepted, hs.worker⟩
  | stopFault addr =>
    obtain ⟨-, -, -, rfl⟩ := step_stopFault h
    exact ⟨hs.chans, hs.nextWait, hs.firstWait, hs.accepted, hs.worker⟩

/-! ## Invariant 2: the calls of `Receive` follow the chain -/

theorem ordered_spawn (b : Bool) (actor : GoActor) (c : Nat) :
    Ordered (SpawnAs b actor c) := by
  constructor <;> simp [SpawnAs, phase, Phase.started, calls]

theorem take_snoc_of_getElem? {l : List Message} {n : Nat} {m : Message} {c : List Message}
    (hc : c = l.take n) (hm : l[n]? = some m) : c ++ [m] = l.take (n + 1) := by
  rw [List.take_succ, hm, hc]
  rfl

theorem lt_of_getElem?_eq_some {ws : List Worker} {k : Nat} {w : Worker}
    (h : ws[k]? = some w) : k < ws.length := by
  by_contra hn
  rw [List.getElem?_eq_none (by omega)] at h
  simp at h

/-- The worker whose program counter is neither `waitBaton` nor `returned` is the
worker of the latest call. -/
theorem ordered_active {s : Proc} (hs : Ordered s) {k : Nat} {w : Worker}
    (hw : s.workers[k]? = some w) (h1 : w.pc ≠ .waitBaton) (h2 : w.pc ≠ .returned) :
    k + 1 = (phase s.log).started ∧ lastOk (phase s.log) w.pc := by
  have a : ¬ (phase s.log).started ≤ k := fun h => h1 (hs.waiting k w hw h)
  have b : ¬ k + 1 < (phase s.log).started := fun h => h2 (hs.gone k w hw h)
  have c : k + 1 = (phase s.log).started := by omega
  exact ⟨c, hs.last k w hw c⟩

theorem ordered_same {s t : Proc} (hs : Ordered s) (h1 : t.workers = s.workers)
    (h2 : t.log = s.log) (h3 : t.primer = s.primer) (h4 : t.accepted = s.accepted) :
    Ordered t := by
  refine ⟨?_, ?_, ?_, ?_, ?_, ?_, ?_⟩ <;> rw [h2] <;> (try rw [h1]) <;> (try rw [h3]) <;>
    (try rw [h4])
  exacts [hs.ok, hs.le, hs.primer, hs.waiting, hs.gone, hs.last, hs.calls]

theorem getElem?_snoc_worker {ws : List Worker} {nw x : Worker} {i : Nat}
    (hx : (ws ++ [nw])[i]? = some x) :
    (i < ws.length → ws[i]? = some x) ∧ (ws.length ≤ i → x = nw) := by
  rcases Nat.lt_or_ge i ws.length with hlt | hge
  · rw [List.getElem?_append_left hlt] at hx
    exact ⟨fun _ => hx, fun h => by omega⟩
  · rw [List.getElem?_append_right hge] at hx
    refine ⟨fun h => by omega, fun _ => ?_⟩
    by_cases h0 : i - ws.length = 0
    · rw [h0] at hx; simp at hx; exact hx.symm
    · rw [List.getElem?_eq_none (by simp; omega)] at hx
      simp at hx

theorem ordered_step {s t : Proc} {a : Action} (hw : Wired s) (hs : Ordered s)
    (h : s.step a = some t) : Ordered t := by
  cases a with
  | prime k =>
    obtain ⟨w, hk, hp, hpc, hcw, rfl⟩ := step_prime h
    have hk0 : k = 0 := by
      have := (hw.worker k w hk).1
      rw [hcw, hw.firstWait] at this
      exact this.symm
    subst hk0
    have hst := hs.primer.mp hp
    have hph : phase s.log = .quiet 0 := by
      have hok := hs.ok
      cases hq : phase s.log <;> simp_all [Phase.started]
    have hlen := lt_of_getElem?_eq_some hk
    have hnew : phase (s.log ++ [Ev.call 0 w.received]) = .busy 0 := by
      rw [phase_snoc, hph]; simp [Phase.next]
    refine ⟨?_, ?_, ?_, ?_, ?_, ?_, ?_⟩ <;> simp only [hnew, Phase.started]
    · simp
    · simp; omega
    · simp
    · intro i x hx hi
      obtain ⟨y, hy, -, -, -, e, -⟩ := getElem?_set_pc hk hx
      rw [e (by omega)]
      exact hs.waiting i y hy (by omega)
    · intro i x _ hi
      omega
    · intro i x hx hi
      obtain ⟨y, hy, -, -, -, -, e⟩ := getElem?_set_pc hk hx
      exact e (by omega)
    · rw [calls_snoc_call]
      refine take_snoc_of_getElem? ?_ (hw.worker 0 w hk).2.2
      rw [hs.calls, hst]
  | baton i k =>
    obtain ⟨v, w, hv, hk, hvp, hwp, hcw, hik, rfl⟩ := step_baton h
    have hki : k = i + 1 := by
      have a := (hw.worker k w hk).1
      have b := (hw.worker i v hv).2.1
      omega
    subst hki
    obtain ⟨hst, hlo⟩ := ordered_active hs hv (by rw [hvp]; simp) (by rw [hvp]; simp)
    have hph : phase s.log = .quiet (i + 1) := by
      cases hq : phase s.log <;> simp_all [Phase.started, lastOk]
    have hlen := lt_of_getElem?_eq_some hk
    have hnew : phase (s.log ++ [Ev.call (i + 1) w.received]) = .busy (i + 1) := by
      rw [phase_snoc, hph]; simp [Phase.next]
    have hget : ∀ j x,
        ((s.workers.set i { v with pc := .returned }).set (i + 1)
          { w with pc := .inReceive })[j]? = some x →
        (j = i + 1 → x.pc = .inReceive) ∧ (j = i → x.pc = .returned) ∧
        (j ≠ i → j ≠ i + 1 → s.workers[j]? = some x) := by
      intro j x hx
      rw [List.getElem?_set] at hx
      split at hx
      · next e =>
        subst e
        split at hx
        · simp at hx; subst hx; simp
        · simp at hx
      · next e =>
        rw [List.getElem?_set] at hx
        split at hx
        · next e2 =>
          subst e2
          split at hx
          · simp at hx; subst hx; simp
          · simp at hx
        · next e2 => exact ⟨fun h => absurd h.symm e, fun h => absurd h.symm e2, fun _ _ => hx⟩
    refine ⟨?_, ?_, ?_, ?_, ?_, ?_, ?_⟩ <;> simp only [hnew, Phase.started]
    · simp
    · simp; omega
    · have : ¬ s.primer = true := fun hp => by
        have := hs.primer.mp hp
        omega
      simpa using this
    · intro j x hx hj
      obtain ⟨-, -, e⟩ := hget j x hx
      exact hs.waiting j x (e (by omega) (by omega)) (by omega)
    · intro j x hx hj
      obtain ⟨-, e1, e2⟩ := hget j x hx
      by_cases hji : j = i
      · exact e1 hji
      · exact hs.gone j x (e2 hji (by omega)) (by omega)
    · intro j x hx hj
      obtain ⟨e, -, -⟩ := hget j x hx
      exact e (by omega)
    · rw [calls_snoc_call]
      refine take_snoc_of_getElem? ?_ (hw.worker (i + 1) w hk).2.2
      rw [hs.calls, ← hst]
  | finish k o addr =>
    obtain ⟨w, hk, hpc, -, -, rfl⟩ := step_finish h
    obtain ⟨hst, hlo⟩ := ordered_active hs hk (by rw [hpc]; simp) (by rw [hpc]; simp)
    have hph : phase s.log = .busy k := by
      cases hq : phase s.log <;> simp_all [Phase.started, lastOk]
    have hnew : phase (s.log ++ [o.event k]) =
        match o with
        | .ret _ => .quiet (k + 1)
        | .fault _ => .broken k := by
      rw [phase_snoc, hph]; cases o <;> simp [Phase.next, Outcome.event]
    have hstart : (phase (s.log ++ [o.event k])).started = (phase s.log).started := by
      rw [hnew, hph]; cases o <;> simp [Phase.started]
    refine ⟨?_, ?_, ?_, ?_, ?_, ?_, ?_⟩ <;> simp only [hstart]
    · rw [hnew]; cases o <;> simp
    · simpa using hs.le
    · exact hs.primer
    · intro i x hx hi
      obtain ⟨y, hy, -, -, -, e, -⟩ := getElem?_set_pc hk hx
      rw [e (by omega)]
      exact hs.waiting i y hy hi
    · intro i x hx hi
      obtain ⟨y, hy, -, -, -, e, -⟩ := getElem?_set_pc hk hx
      rw [e (by omega)]
      exact hs.gone i y hy hi
    · intro i x hx hi
      obtain ⟨y, hy, -, -, -, -, e⟩ := getElem?_set_pc hk hx
      rw [e (by omega), hnew]
      rcases o with (_ | e) | (_ | r) <;> simp [afterReceive, lastOk]
    · rw [calls_snoc_event]
      exact hs.calls
  | report k =>
    obtain ⟨w, err, pc, hk, -, hr, rfl⟩ := step_report h
    have hne : w.pc ≠ .waitBaton ∧ w.pc ≠ .returned := by
      constructor <;> intro e <;> rw [e] at hr <;> simp [afterReport] at hr
    obtain ⟨hst, hlo⟩ := ordered_active hs hk hne.1 hne.2
    refine ⟨hs.ok, by simpa using hs.le, hs.primer, ?_, ?_, ?_, hs.calls⟩
    · intro i x hx hi
      obtain ⟨y, hy, -, -, -, e, -⟩ := getElem?_set_pc hk hx
      rw [e (by simp only at hi; omega)]
      exact hs.waiting i y hy hi
    · intro i x hx hi
      obtain ⟨y, hy, -, -, -, e, -⟩ := getElem?_set_pc hk hx
      rw [e (by simp only at hi; omega)]
      exact hs.gone i y hy hi
    · intro i x hx hi
      obtain ⟨y, hy, -, -, -, -, e⟩ := getElem?_set_pc hk hx
      simp only at hi ⊢
      rw [e (by omega)]
      cases hq : phase s.log <;> cases hp : w.pc <;>
        simp_all [lastOk, afterReport]
  | accept m =>
    obtain ⟨-, rfl⟩ := step_accept h
    have hget := fun i x => @getElem?_snoc_worker s.workers
      { received := m, currWait := s.nextWait, opsNextWait := s.chans, pc := .waitBaton } x i
    have hle := hs.le
    refine ⟨hs.ok, by simp; omega, hs.primer, ?_, ?_, ?_, ?_⟩
    · intro i x hx hi
      obtain ⟨e1, e2⟩ := hget i x hx
      rcases Nat.lt_or_ge i s.workers.length with hlt | hge
      · exact hs.waiting i x (e1 hlt) hi
      · rw [e2 hge]
    · intro i x hx hi
      obtain ⟨e1, -⟩ := hget i x hx
      simp only at hi
      exact hs.gone i x (e1 (by omega)) hi
    · intro i x hx hi
      obtain ⟨e1, -⟩ := hget i x hx
      simp only at hi
      exact hs.last i x (e1 (by omega)) hi
    · simp only
      rw [List.take_append_of_le_length (by rw [hw.accepted]; exact hle)]
      exact hs.calls
  | stopReq err =>
    obtain ⟨-, rfl⟩ := step_stopReq h
    exact ordered_same hs rfl rfl rfl rfl
  | watched =>
    rcases step_watched h with ⟨err, -, rfl⟩ | ⟨err, -, rfl⟩ <;>
      exact ordered_same hs rfl rfl rfl rfl
  | halt =>
    obtain ⟨-, -, rfl⟩ := step_halt h
    exact ordered_same hs rfl rfl rfl rfl
  | idle =>
    obtain ⟨-, rfl⟩ := step_idle h
    exact hs
  | detach =>
    obtain ⟨-, rfl⟩ := step_detach h
    exact ordered_same hs rfl rfl rfl rfl
  | attach =>
    obtain ⟨-, rfl⟩ := step_attach h
    exact ordered_same hs rfl rfl rfl rfl
  | stopFault addr =>
    obtain ⟨-, -, -, rfl⟩ := step_stopFault h
    exact ordered_same hs rfl rfl rfl rfl

/-! ## Invariant 3: the control loop terminates once -/

theorem settled_spawn (b : Bool) (actor : GoActor) (c : Nat) : Settled (SpawnAs b actor c) := by
  constructor <;> simp [SpawnAs, GoActor.Init]

theorem reported_append {log : List Ev} {e : GoError} (h : Reported log e) (l : List Ev) :
    Reported (log ++ l) e := by
  obtain ⟨h0, h1 | ⟨k, r, a, h2, h3⟩⟩ := h
  · obtain ⟨k, hk⟩ := h1
    exact ⟨h0, Or.inl ⟨k, List.mem_append_left l hk⟩⟩
  · exact ⟨h0, Or.inr ⟨k, r, a, List.mem_append_left l h2, h3⟩⟩

theorem makeError_ne_none (h : Heap) (i : Value) : (makeError h i).1 ≠ none := by
  simp [makeError, errorsNew]

/-- A step that leaves the loop and the actor as they are keeps the invariant if
the workers now blocked at a send on `stop` hold reported failures. -/
theorem settled_workers {s t : Proc} (hs : Settled s) (l : List Ev)
    (h1 : t.loop = s.loop) (h2 : t.actor = s.actor) (h3 : t.p = s.p)
    (h4 : t.erroredSent = s.erroredSent) (h5 : t.log = s.log ++ l)
    (h7 : t.pointer = s.pointer) (h8 : t.detached = s.detached)
    (h9 : t.crashed = s.crashed)
    (h6 : ∀ (i : Nat) (w : Worker) (err : GoError) (pc : WorkerPc),
      t.workers[i]? = some w → afterReport w.pc = some (err, pc) →
      Reported t.log err) : Settled t := by
  refine ⟨by rw [h2, h3]; exact hs.self, by rw [h7, h8]; exact hs.ptr,
    by rw [h7, h9]; exact hs.crash,
    by rw [h4]; exact hs.nonnil, ?_, ?_, ?_, ?_, ?_, ?_, h6⟩
  · rw [h1, h2, h4]
    exact hs.select
  · rw [h1, h2, h4, h5]
    intro e he
    obtain ⟨a, b, c⟩ := hs.sending e he
    exact ⟨a, b, reported_append c l⟩
  · rw [h1, h2, h4, h5]
    intro he
    obtain ⟨a, e, b, c⟩ := hs.internal he
    exact ⟨a, e, b, reported_append c l⟩
  · rw [h1, h2, h4]
    exact hs.external
  · rw [h1, h2, h4, h9]
    exact hs.deferring
  · rw [h1, h2, h4, h5, h9]
    intro he
    obtain ⟨a0, a1⟩ := hs.returned he
    refine ⟨a0, fun hd => ?_⟩
    obtain ⟨a, b | ⟨e, b, c⟩⟩ := a1 hd
    · exact ⟨a, Or.inl b⟩
    · exact ⟨a, Or.inr ⟨e, b, reported_append c l⟩⟩

theorem settled_step {s t : Proc} {a : Action} (hs : Settled s) (h : s.step a = some t) :
    Settled t := by
  cases a with
  | prime k =>
    obtain ⟨w, hk, -, -, -, rfl⟩ := step_prime h
    refine settled_workers hs [Ev.call k w.received] rfl rfl rfl rfl rfl rfl rfl rfl ?_
    intro i x err pc hx hr
    obtain ⟨y, hy, -, -, -, e1, e2⟩ := getElem?_set_pc hk hx
    by_cases hik : i = k
    · rw [e2 hik] at hr; simp [afterReport] at hr
    · rw [e1 hik] at hr
      exact reported_append (hs.pending i y err pc hy hr) _
  | baton i k =>
    obtain ⟨v, w, hv, hk, -, -, -, hik, rfl⟩ := step_baton h
    refine settled_workers hs [Ev.call k w.received] rfl rfl rfl rfl rfl rfl rfl rfl ?_
    intro j x err pc hx hr
    have hk2 : (s.workers.set i { v with pc := .returned })[k]? = some w := by
      rw [List.getElem?_set_ne hik]; exact hk
    obtain ⟨y, hy, -, -, -, e1, e2⟩ := getElem?_set_pc hk2 hx
    by_cases hjk : j = k
    · rw [e2 hjk] at hr; simp [afterReport] at hr
    · rw [e1 hjk] at hr
      obtain ⟨z, hz, -, -, -, f1, f2⟩ := getElem?_set_pc hv hy
      by_cases hji : j = i
      · rw [f2 hji] at hr; simp [afterReport] at hr
      · rw [f1 hji] at hr
        exact reported_append (hs.pending j z err pc hz hr) _
  | finish k o addr =>
    obtain ⟨w, hk, -, -, -, rfl⟩ := step_finish h
    refine settled_workers hs [o.event k] rfl rfl rfl rfl rfl rfl rfl rfl ?_
    intro i x err pc hx hr
    obtain ⟨y, hy, -, -, -, e1, e2⟩ := getElem?_set_pc hk hx
    by_cases hik : i = k
    · rw [e2 hik] at hr
      rcases o with (_ | e) | (_ | r) <;> simp [afterReceive, afterReport] at hr
      · obtain ⟨rfl, -⟩ := hr
        exact ⟨by simp, Or.inl ⟨k, by simp [Outcome.event]⟩⟩
      · obtain ⟨rfl, -⟩ := hr
        exact ⟨makeError_ne_none _ _,
          Or.inr ⟨k, r, { next := addr }, by simp [Outcome.event], rfl⟩⟩
    · rw [e1 hik] at hr
      exact reported_append (hs.pending i y err pc hy hr) _
  | report k =>
    obtain ⟨w, err, pc, hk, hl, hr, rfl⟩ := step_report h
    obtain ⟨h1, h2⟩ := hs.select hl
    refine ⟨hs.self, hs.ptr, hs.crash, hs.nonnil, by simp, ?_, by simp, by simp, by simp,
      by simp, ?_⟩
    · intro e he
      simp only [LoopPc.sendErrored.injEq] at he
      subst he
      exact ⟨h1, h2, hs.pending k w err pc hk hr⟩
    · intro i x err2 pc2 hx hr2
      obtain ⟨y, hy, -, -, -, e1, e2⟩ := getElem?_set_pc hk hx
      by_cases hik : i = k
      · rw [e2 hik] at hr2
        cases hp : w.pc <;> rw [hp] at hr <;> simp [afterReport] at hr <;>
          (obtain ⟨-, rfl⟩ := hr; simp [afterReport] at hr2)
      · rw [e1 hik] at hr2
        exact hs.pending i y err2 pc2 hy hr2
  | accept m =>
    obtain ⟨hl, rfl⟩ := step_accept h
    refine settled_workers hs [] rfl rfl rfl rfl (by simp) rfl rfl rfl ?_
    intro i x err pc hx hr
    obtain ⟨e1, e2⟩ := getElem?_snoc_worker hx
    rcases Nat.lt_or_ge i s.workers.length with hlt | hge
    · exact hs.pending i x err pc (e1 hlt) hr
    · rw [e2 hge] at hr; simp [afterReport] at hr
  | stopReq err =>
    obtain ⟨hl, rfl⟩ := step_stopReq h
    exact ⟨hs.self, hs.ptr, hs.crash, hs.nonnil, by simp, by simp, by simp,
      fun _ => hs.select hl, by simp, by simp, hs.pending⟩
  | watched =>
    rcases step_watched h with ⟨err, hl, rfl⟩ | ⟨err, hl, rfl⟩
    · obtain ⟨h1, h2, h3⟩ := hs.sending err hl
      refine ⟨hs.self, hs.ptr, hs.crash, ?_, by simp, by simp,
        fun _ => ⟨h2, err, by simp [h1], h3⟩, by simp, by simp, by simp, hs.pending⟩
      intro e he
      simp only [h1, List.nil_append, List.mem_singleton] at he
      rw [he]
      exact h3.1
    · obtain ⟨h1, -, h3, h4⟩ := hs.deferring err hl
      refine ⟨hs.self, hs.ptr, hs.crash, ?_, by simp, by simp, by simp, by simp, by simp,
        fun _ => ⟨?_, ?_⟩, hs.pending⟩
      · intro e he
        simp only [List.mem_append, List.mem_singleton] at he
        rcases he with he | he
        · exact hs.nonnil e he
        · rw [he]; exact h3
      · simp only [List.length_append, List.length_singleton]
        omega
      · intro hd
        simp only at hd
        rw [h1] at hd
        simp at hd
  | halt =>
    obtain ⟨hl, hd, rfl⟩ := step_halt h
    refine ⟨hs.self, hs.ptr, hs.crash, hs.nonnil, by simp, by simp, by simp, by simp, by simp,
      fun _ => ⟨?_, fun _ => ⟨rfl, ?_⟩⟩, hs.pending⟩
    · rcases hl with hl | hl
      · obtain ⟨-, e, h1, -⟩ := hs.internal hl
        simp [h1]
      · simp [(hs.external hl).1]
    · rcases hl with hl | hl
      · obtain ⟨-, e, h1, h2⟩ := hs.internal hl
        exact Or.inr ⟨e, h1, h2⟩
      · exact Or.inl (hs.external hl).1
  | idle =>
    obtain ⟨-, rfl⟩ := step_idle h
    exact hs
  | detach =>
    obtain ⟨hp, rfl⟩ := step_detach h
    exact ⟨hs.self, fun _ => hp, hs.crash, hs.nonnil, hs.select, hs.sending, hs.internal,
      hs.external, hs.deferring, hs.returned, hs.pending⟩
  | attach =>
    obtain ⟨hp, rfl⟩ := step_attach h
    exact ⟨hs.self, fun _ => hp, hs.crash, hs.nonnil, hs.select, hs.sending, hs.internal,
      hs.external, hs.deferring, hs.returned, hs.pending⟩
  | stopFault addr =>
    obtain ⟨hl, hd, -, rfl⟩ := step_stopFault h
    have hal : s.actor.alive = true ∧ s.erroredSent.length ≤ 1 := by
      rcases hl with hl | hl
      · obtain ⟨h1, e, h2, -⟩ := hs.internal hl
        exact ⟨h1, by simp [h2]⟩
      · obtain ⟨h1, h2⟩ := hs.external hl
        exact ⟨h2, by simp [h1]⟩
    refine ⟨hs.self, hs.ptr, fun _ => hs.ptr hd, hs.nonnil, by simp, by simp, by simp, by simp,
      ?_, by simp, hs.pending⟩
    intro e he
    simp only [LoopPc.deferSend.injEq] at he
    subst he
    exact ⟨rfl, hal.1, makeError_ne_none _ _, hal.2⟩

/-- As long as no call `actor.stop()` of the loop has panicked the loop has sent
at most one value on `p.errored`, a reported failure of `actor.Receive`. -/
theorem settled_attached {s : Proc} (hs : Settled s) (hd : s.crashed = false) :
    s.erroredSent = [] ∨ ∃ e, s.erroredSent = [e] ∧ Reported s.log e := by
  cases hl : s.loop with
  | select => exact Or.inl (hs.select hl).1
  | sendErrored e => exact Or.inl (hs.sending e hl).1
  | stopInternal =>
    obtain ⟨-, e, h1, h2⟩ := hs.internal hl
    exact Or.inr ⟨e, h1, h2⟩
  | stopExternal => exact Or.inl (hs.external hl).1
  | deferSend e =>
    have := (hs.deferring e hl).1
    rw [hd] at this
    simp at this
  | returned => exact ((hs.returned hl).2 hd).2

/-- An actor whose type embeds `GoActor` itself always has it in place, and its
`actor.stop()` never panics. -/
theorem settled_value {s : Proc} (hs : Settled s) (hp : s.pointer = false) :
    s.detached = false ∧ s.crashed = false := by
  constructor
  · cases hd : s.detached with
    | false => rfl
    | true =>
      have := hs.ptr hd
      rw [hp] at this
      simp at this
  · cases hd : s.crashed with
    | false => rfl
    | true =>
      have := hs.crash hd
      rw [hp] at this
      simp at this
/-! ## Reachable states -/

theorem inv_spawnAs (b : Bool) (actor : GoActor) (c : Nat) : Inv (SpawnAs b actor c) :=
  ⟨wired_spawn b actor c, ordered_spawn b actor c, settled_spawn b actor c⟩

theorem inv_spawn (actor : GoActor) (c : Nat) : Inv (Spawn actor c) :=
  inv_spawnAs false actor c

theorem inv_step {s t : Proc} {a : Action} (hs : Inv s) (h : s.step a = some t) : Inv t :=
  ⟨wired_step hs.wired h, ordered_step hs.wired hs.ordered h, settled_step hs.settled h⟩

theorem run_cons {s t : Proc} {a : Action} {as : List Action} (h : s.run (a :: as) = some t) :
    ∃ u, s.step a = some u ∧ u.run as = some t := by
  simp only [Proc.run] at h
  cases hu : s.step a with
  | none => rw [hu] at h; simp at h
  | some u => rw [hu] at h; exact ⟨u, rfl, by simpa using h⟩

theorem inv_run {s t : Proc} {acts : List Action} (hs : Inv s) (h : s.run acts = some t) :
    Inv t := by
  induction acts generalizing s with
  | nil => simp [Proc.run] at h; subst h; exact hs
  | cons a as ih =>
    obtain ⟨u, hu, hr⟩ := run_cons h
    exact ih (inv_step hs hu) hr

theorem run_append {s t : Proc} {as bs : List Action} (h : s.run (as ++ bs) = some t) :
    ∃ u, s.run as = some u ∧ u.run bs = some t := by
  induction as generalizing s with
  | nil => exact ⟨s, rfl, h⟩
  | cons a as ih =>
    obtain ⟨v, hv, hr⟩ := run_cons h
    obtain ⟨u, hu, hb⟩ := ih hr
    exact ⟨u, by simp [Proc.run, hv, hu], hb⟩

/-! ## Sequential histories -/

theorem phase_bad_append {l : List Ev} (h : phase l = .bad) (l2 : List Ev) :
    phase (l ++ l2) = .bad := by
  induction l2 using List.reverseRecOn with
  | nil => simpa using h
  | append_singleton l2 e ih =>
    rw [← List.append_assoc, phase_snoc, ih]
    rfl

/-- The call of worker `k` is admitted by the monitor only when exactly the
calls `0 .. k-1` have returned. -/
theorem quiet_of_call {pre post : List Ev} {k : Nat} {m : Message}
    (h : phase (pre ++ Ev.call k m :: post) ≠ .bad) : phase pre = .quiet k := by
  have h1 : phase (pre ++ [Ev.call k m]) ≠ .bad := by
    intro hb
    apply h
    have := phase_bad_append hb post
    simpa using this
  rw [phase_snoc] at h1
  cases hq : phase pre <;> rw [hq] at h1 <;> simp [Phase.next] at h1
  rw [h1]

theorem phase_counts (log : List Ev) (h : phase log ≠ .bad) :
    (calls log).length = (phase log).started ∧ ended log = (phase log).finished := by
  induction log using List.reverseRecOn with
  | nil => simp [phase, calls, ended, Phase.started, Phase.finished]
  | append_singleton l e ih =>
    have hl : phase l ≠ .bad := fun hb => h (phase_bad_append hb [e])
    have ih := ih hl
    rw [phase_snoc] at h ⊢
    cases hq : phase l <;> rw [hq] at ih h <;> cases e <;> simp only [Phase.next] at h ⊢ <;>
      (try exact absurd rfl h) <;> split at h <;> (try exact absurd rfl h) <;>
      simp_all [calls, ended, List.filterMap_append, List.filter_append, Phase.started,
        Phase.finished]

theorem ret_before_quiet {log : List Ev} {k : Nat} (h : phase log = .quiet (k + 1)) :
    ∃ pre err, log = pre ++ [Ev.ret k err] := by
  induction log using List.reverseRecOn with
  | nil => simp [phase] at h
  | append_singleton l e _ =>
    rw [phase_snoc] at h
    cases hq : phase l with
    | busy n =>
      rw [hq] at h
      cases e with
      | ret j err =>
        simp only [Phase.next] at h
        split at h
        · next hj =>
          simp only [Phase.quiet.injEq, Nat.add_right_cancel_iff] at h
          subst hj; subst h
          exact ⟨l, err, rfl⟩
        · simp at h
      | call j m => simp [Phase.next] at h
      | fault j r =>
        simp only [Phase.next] at h
        split at h <;> simp at h
    | quiet n =>
      rw [hq] at h
      cases e <;> simp only [Phase.next] at h <;> (try split at h) <;> simp at h
    | broken n => rw [hq] at h; cases e <;> simp [Phase.next] at h
    | bad => rw [hq] at h; cases e <;> simp [Phase.next] at h

/-! ## How a step moves the control loop -/

/-- Every step either leaves the control loop where it is, or is one of the
seven moves of `recvLoop`. -/
theorem step_loop {s t : Proc} {a : Action} (h : s.step a = some t) :
    (t.loop = s.loop ∧ t.actor = s.actor ∧ t.erroredSent = s.erroredSent ∧
      t.accepted = s.accepted ∧ a ≠ .watched ∧ a ≠ .halt) ∨
    (s.loop = .select ∧ (∃ k e, a = .report k ∧ t.loop = .sendErrored e) ∧ t.actor = s.actor ∧
      t.erroredSent = s.erroredSent ∧ t.accepted = s.accepted) ∨
    (s.loop = .select ∧ (∃ m, a = .accept m ∧ t.accepted = s.accepted ++ [m]) ∧
      t.loop = .select ∧ t.actor = s.actor ∧ t.erroredSent = s.erroredSent) ∨
    (s.loop = .select ∧ (∃ err, a = .stopReq err) ∧ t.loop = .stopExternal ∧
      t.actor = s.actor ∧ t.erroredSent = s.erroredSent ∧ t.accepted = s.accepted) ∨
    ((∃ e, s.loop = .sendErrored e ∧ t.erroredSent = s.erroredSent ++ [e]) ∧ a = .watched ∧
      t.loop = .stopInternal ∧ t.actor = s.actor ∧ t.accepted = s.accepted) ∨
    ((s.loop = .stopInternal ∨ s.loop = .stopExternal) ∧ a = .halt ∧ t.loop = .returned ∧
      t.actor = s.actor.stop ∧ t.erroredSent = s.erroredSent ∧ t.accepted = s.accepted ∧
      s.detached = false) ∨
    ((s.loop = .stopInternal ∨ s.loop = .stopExternal) ∧ s.detached = true ∧
      (∃ addr, a = .stopFault addr) ∧ (∃ e, t.loop = .deferSend e) ∧ t.actor = s.actor ∧
      t.erroredSent = s.erroredSent ∧ t.accepted = s.accepted) ∨
    ((∃ e, s.loop = .deferSend e ∧ t.erroredSent = s.erroredSent ++ [e]) ∧ a = .watched ∧
      t.loop = .returned ∧ t.actor = s.actor ∧ t.accepted = s.accepted) := by
  cases a with
  | prime k =>
    obtain ⟨w, -, -, -, -, rfl⟩ := step_prime h
    exact Or.inl ⟨rfl, rfl, rfl, rfl, by simp, by simp⟩
  | baton i k =>
    obtain ⟨v, w, -, -, -, -, -, -, rfl⟩ := step_baton h
    exact Or.inl ⟨rfl, rfl, rfl, rfl, by simp, by simp⟩
  | finish k o addr =>
    obtain ⟨w, -, -, -, -, rfl⟩ := step_finish h
    exact Or.inl ⟨rfl, rfl, rfl, rfl, by simp, by simp⟩
  | report k =>
    obtain ⟨w, err, pc, -, hl, -, rfl⟩ := step_report h
    exact Or.inr (Or.inl ⟨hl, ⟨k, err, rfl, rfl⟩, rfl, rfl, rfl⟩)
  | accept m =>
    obtain ⟨hl, rfl⟩ := step_accept h
    exact Or.inr (Or.inr (Or.inl ⟨hl, ⟨m, rfl, rfl⟩, hl, rfl, rfl⟩))
  | stopReq err =>
    obtain ⟨hl, rfl⟩ := step_stopReq h
    exact Or.inr (Or.inr (Or.inr (Or.inl ⟨hl, ⟨err, rfl⟩, rfl, rfl, rfl, rfl⟩)))
  | watched =>
    rcases step_watched h with ⟨err, hl, rfl⟩ | ⟨err, hl, rfl⟩
    · exact Or.inr (Or.inr (Or.inr (Or.inr (Or.inl ⟨⟨err, hl, rfl⟩, rfl, rfl, rfl, rfl⟩))))
    · exact Or.inr (Or.inr (Or.inr (Or.inr (Or.inr (Or.inr (Or.inr
        ⟨⟨err, hl, rfl⟩, rfl, rfl, rfl, rfl⟩))))))
  | halt =>
    obtain ⟨hl, hd, rfl⟩ := step_halt h
    exact Or.inr (Or.inr (Or.inr (Or.inr (Or.inr (Or.inl ⟨hl, rfl, rfl, rfl, rfl, rfl, hd⟩)))))
  | idle =>
    obtain ⟨-, rfl⟩ := step_idle h
    exact Or.inl ⟨rfl, rfl, rfl, rfl, by simp, by simp⟩
  | detach =>
    obtain ⟨-, rfl⟩ := step_detach h
    exact Or.inl ⟨rfl, rfl, rfl, rfl, by simp, by simp⟩
  | attach =>
    obtain ⟨-, rfl⟩ := step_attach h
    exact Or.inl ⟨rfl, rfl, rfl, rfl, by simp, by simp⟩
  | stopFault addr =>
    obtain ⟨hl, hd, -, rfl⟩ := step_stopFault h
    exact Or.inr (Or.inr (Or.inr (Or.inr (Or.inr (Or.inr (Or.inl
      ⟨hl, hd, ⟨addr, rfl⟩, ⟨_, rfl⟩, rfl, rfl, rfl⟩))))))

/-- A step never changes how the actor holds its `GoActor`; only the host
program, and only for an embedded `*GoActor`, sets it to nil or back; and only a
panic of `actor.stop()` is recorded as one. -/
theorem step_flags {s t : Proc} {a : Action} (h : s.step a = some t) :
    t.pointer = s.pointer ∧ (t.detached = s.detached ∨ s.pointer = true) ∧
      (t.crashed = s.crashed ∨ ((∃ addr, a = .stopFault addr) ∧ t.crashed = true)) := by
  cases a with
  | prime k =>
    obtain ⟨w, -, -, -, -, rfl⟩ := step_prime h
    exact ⟨rfl, Or.inl rfl, Or.inl rfl⟩
  | baton i k =>
    obtain ⟨v, w, -, -, -, -, -, -, rfl⟩ := step_baton h
    exact ⟨rfl, Or.inl rfl, Or.inl rfl⟩
  | finish k o addr =>
    obtain ⟨w, -, -, -, -, rfl⟩ := step_finish h
    exact ⟨rfl, Or.inl rfl, Or.inl rfl⟩
  | report k =>
    obtain ⟨w, err, pc, -, -, -, rfl⟩ := step_report h
    exact ⟨rfl, Or.inl rfl, Or.inl rfl⟩
  | accept m =>
    obtain ⟨-, rfl⟩ := step_accept h
    exact ⟨rfl, Or.inl rfl, Or.inl rfl⟩
  | stopReq err =>
    obtain ⟨-, rfl⟩ := step_stopReq h
    exact ⟨rfl, Or.inl rfl, Or.inl rfl⟩
  | watched =>
    rcases step_watched h with ⟨err, -, rfl⟩ | ⟨err, -, rfl⟩ <;>
      exact ⟨rfl, Or.inl rfl, Or.inl rfl⟩
  | halt =>
    obtain ⟨-, -, rfl⟩ := step_halt h
    exact ⟨rfl, Or.inl rfl, Or.inl rfl⟩
  | idle =>
    obtain ⟨-, rfl⟩ := step_idle h
    exact ⟨rfl, Or.inl rfl, Or.inl rfl⟩
  | detach =>
    obtain ⟨hp, rfl⟩ := step_detach h
    exact ⟨rfl, Or.inr hp, Or.inl rfl⟩
  | attach =>
    obtain ⟨hp, rfl⟩ := step_attach h
    exact ⟨rfl, Or.inr hp, Or.inl rfl⟩
  | stopFault addr =>
    obtain ⟨-, -, -, rfl⟩ := step_stopFault h
    exact ⟨rfl, Or.inl rfl, Or.inr ⟨⟨addr, rfl⟩, rfl⟩⟩

theorem pointer_run {s t : Proc} {acts : List Action} (h : s.run acts = some t) :
    t.pointer = s.pointer := by
  induction acts generalizing s with
  | nil => simp [Proc.run] at h; subst h; rfl
  | cons a as ih =>
    obtain ⟨u, hu, hr⟩ := run_cons h
    rw [ih hr, (step_flags hu).1]

theorem settled_run {s t : Proc} {acts : List Action} (hs : Settled s)
    (h : s.run acts = some t) : Settled t := by
  induction acts generalizing s with
  | nil => simp [Proc.run] at h; subst h; exact hs
  | cons a as ih =>
    obtain ⟨u, hu, hr⟩ := run_cons h
    exact ih (settled_step hs hu) hr

/-- The states of an actor whose type embeds `GoActor` itself. -/
theorem value_run {actor : GoActor} {c : Nat} {acts : List Action} {s : Proc}
    (h : (Spawn actor c).run acts = some s) :
    s.pointer = false ∧ s.detached = false ∧ s.crashed = false := by
  have hp : s.pointer = false := pointer_run h
  exact ⟨hp, settled_value (inv_run (inv_spawn actor c) h).settled hp⟩

/-- For an actor whose type embeds `GoActor` itself `actor.stop()` does not
panic, and a step is one of the five moves of `recvLoop` outside the deferred
function. -/
theorem step_loop_value {s t : Proc} {a : Action} (hs : Settled s) (hp : s.pointer = false)
    (h : s.step a = some t) :
    (t.loop = s.loop ∧ t.actor = s.actor ∧ t.erroredSent = s.erroredSent ∧
      t.accepted = s.accepted ∧ a ≠ .watched ∧ a ≠ .halt) ∨
    (s.loop = .select ∧ (∃ k e, a = .report k ∧ t.loop = .sendErrored e) ∧ t.actor = s.actor ∧
      t.erroredSent = s.erroredSent ∧ t.accepted = s.accepted) ∨
    (s.loop = .select ∧ (∃ m, a = .accept m ∧ t.accepted = s.accepted ++ [m]) ∧
      t.loop = .select ∧ t.actor = s.actor ∧ t.erroredSent = s.erroredSent) ∨
    (s.loop = .select ∧ (∃ err, a = .stopReq err) ∧ t.loop = .stopExternal ∧
      t.actor = s.actor ∧ t.erroredSent = s.erroredSent ∧ t.accepted = s.accepted) ∨
    ((∃ e, s.loop = .sendErrored e ∧ t.erroredSent = s.erroredSent ++ [e]) ∧ a = .watched ∧
      t.loop = .stopInternal ∧ t.actor = s.actor ∧ t.accepted = s.accepted) ∨
    ((s.loop = .stopInternal ∨ s.loop = .stopExternal) ∧ a = .halt ∧ t.loop = .returned ∧
      t.actor = s.actor.stop ∧ t.erroredSent = s.erroredSent ∧ t.accepted = s.accepted) := by
  have hd := settled_value hs hp
  rcases step_loop h with h1 | h1 | h1 | h1 | h1 | ⟨a1, a2, a3, a4, a5, a6, -⟩ |
    ⟨-, h1, -⟩ | ⟨⟨e, h1, -⟩, -⟩
  · exact Or.inl h1
  · exact Or.inr (Or.inl h1)
  · exact Or.inr (Or.inr (Or.inl h1))
  · exact Or.inr (Or.inr (Or.inr (Or.inl h1)))
  · exact Or.inr (Or.inr (Or.inr (Or.inr (Or.inl h1))))
  · exact Or.inr (Or.inr (Or.inr (Or.inr (Or.inr ⟨a1, a2, a3, a4, a5, a6⟩))))
  · rw [hd.1] at h1; simp at h1
  · have := (hs.deferring e h1).1
    rw [hd.2] at this
    simp at this

/-- A step keeps the handle and only appends to the history. -/
theorem step_log {s t : Proc} {a : Action} (h : s.step a = some t) :
    t.p = s.p ∧ ∃ l, t.log = s.log ++ l := by
  cases a with
  | prime k =>
    obtain ⟨w, -, -, -, -, rfl⟩ := step_prime h
    exact ⟨rfl, _, rfl⟩
  | baton i k =>
    obtain ⟨v, w, -, -, -, -, -, -, rfl⟩ := step_baton h
    exact ⟨rfl, _, rfl⟩
  | finish k o addr =>
    obtain ⟨w, -, -, -, -, rfl⟩ := step_finish h
    exact ⟨rfl, _, rfl⟩
  | report k =>
    obtain ⟨w, err, pc, -, -, -, rfl⟩ := step_report h
    exact ⟨rfl, [], by simp⟩
  | accept m =>
    obtain ⟨-, rfl⟩ := step_accept h
    exact ⟨rfl, [], by simp⟩
  | stopReq err =>
    obtain ⟨-, rfl⟩ := step_stopReq h
    exact ⟨rfl, [], by simp⟩
  | watched =>
    rcases step_watched h with ⟨err, -, rfl⟩ | ⟨err, -, rfl⟩ <;> exact ⟨rfl, [], by simp⟩
  | halt =>
    obtain ⟨-, -, rfl⟩ := step_halt h
    exact ⟨rfl, [], by simp⟩
  | idle =>
    obtain ⟨-, rfl⟩ := step_idle h
    exact ⟨rfl, [], by simp⟩
  | detach =>
    obtain ⟨-, rfl⟩ := step_detach h
    exact ⟨rfl, [], by simp⟩
  | attach =>
    obtain ⟨-, rfl⟩ := step_attach h
    exact ⟨rfl, [], by simp⟩
  | stopFault addr =>
    obtain ⟨-, -, -, rfl⟩ := step_stopFault h
    exact ⟨rfl, [], by simp⟩

/-- Once the loop has left the `select` it never comes back and accepts nothing. -/
theorem left_select_step {s t : Proc} {a : Action} (hl : s.loop ≠ .select)
    (h : s.step a = some t) : t.loop ≠ .select ∧ t.accepted = s.accepted := by
  rcases step_loop h with ⟨h1, -, -, h2, -⟩ | ⟨h1, -⟩ | ⟨h1, -⟩ | ⟨h1, -⟩ |
    ⟨-, -, h1, -, h2⟩ | ⟨-, -, h1, -, -, h2, -⟩ | ⟨-, -, -, ⟨e, h1⟩, -, -, h2⟩ |
    ⟨-, -, h1, -, h2⟩
  · exact ⟨by rw [h1]; exact hl, h2⟩
  · exact absurd h1 hl
  · exact absurd h1 hl
  · exact absurd h1 hl
  · exact ⟨by rw [h1]; simp, h2⟩
  · exact ⟨by rw [h1]; simp, h2⟩
  · exact ⟨by rw [h1]; simp, h2⟩
  · exact ⟨by rw [h1]; simp, h2⟩

theorem left_select_run {s t : Proc} {acts : List Action} (hl : s.loop ≠ .select)
    (h : s.run acts = some t) : t.loop ≠ .select ∧ t.accepted = s.accepted := by
  induction acts generalizing s with
  | nil => simp [Proc.run] at h; subst h; exact ⟨hl, rfl⟩
  | cons a as ih =>
    obtain ⟨u, hu, hr⟩ := run_cons h
    obtain ⟨h1, h2⟩ := left_select_step hl hu
    obtain ⟨h3, h4⟩ := ih h1 hr
    exact ⟨h3, by rw [h4, h2]⟩

/-- After the `case <-p.stop` nothing is ever sent on `p.errored`. -/
theorem external_step {s t : Proc} {a : Action} (hs : Settled s) (hp : s.pointer = false)
    (hl : s.loop = .stopExternal ∨ s.loop = .returned) (he : s.erroredSent = [])
    (h : s.step a = some t) :
    (t.loop = .stopExternal ∨ t.loop = .returned) ∧ t.erroredSent = [] := by
  rcases step_loop_value hs hp h with ⟨h1, -, h2, -⟩ | ⟨h1, -⟩ | ⟨h1, -⟩ | ⟨h1, -⟩ |
    ⟨⟨e, h1, -⟩, -⟩ | ⟨-, -, h1, -, h2, -⟩
  · exact ⟨by rw [h1]; exact hl, by rw [h2]; exact he⟩
  · rcases hl with hl | hl <;> rw [hl] at h1 <;> simp at h1
  · rcases hl with hl | hl <;> rw [hl] at h1 <;> simp at h1
  · rcases hl with hl | hl <;> rw [hl] at h1 <;> simp at h1
  · rcases hl with hl | hl <;> rw [hl] at h1 <;> simp at h1
  · exact ⟨Or.inr h1, by rw [h2]; exact he⟩

theorem external_run {s t : Proc} {acts : List Action} (hs : Settled s)
    (hp : s.pointer = false) (hl : s.loop = .stopExternal ∨ s.loop = .returned)
    (he : s.erroredSent = []) (h : s.run acts = some t) :
    (t.loop = .stopExternal ∨ t.loop = .returned) ∧ t.erroredSent = [] := by
  induction acts generalizing s with
  | nil => simp [Proc.run] at h; subst h; exact ⟨hl, he⟩
  | cons a as ih =>
    obtain ⟨u, hu, hr⟩ := run_cons h
    obtain ⟨h1, h2⟩ := external_step hs hp hl he hu
    exact ih (settled_step hs hu) (by rw [(step_flags hu).1]; exact hp) h1 h2 hr

/-- After the case `<-p.stop` the only send on `p.errored` is the one of the
deferred function. -/
theorem stopped_step {s t : Proc} {a : Action} (hs : Settled s) (hc : Stopped s)
    (h : s.step a = some t) : Stopped t := by
  have hfl := (step_flags h).2.2
  rcases step_loop h with ⟨h1, -, h2, -⟩ | ⟨h1, -⟩ | ⟨h1, -⟩ | ⟨h1, -⟩ |
    ⟨⟨e, h1, -⟩, -⟩ | ⟨h0, -, h1, -, h2, -⟩ | ⟨h0, -, ⟨addr, rfl⟩, -, -, h2, -⟩ |
    ⟨⟨e, h1, h2⟩, -, h3, -⟩
  · rcases hc with ⟨g1, g2⟩ | ⟨x, g1, g2, g3⟩
    · exact Or.inl ⟨by rw [h2]; exact g1, by rw [h1]; exact g2⟩
    · refine Or.inr ⟨x, by rw [h2]; exact g1, by rw [h1]; exact g2, ?_⟩
      rcases hfl with h4 | ⟨-, h4⟩
      · rw [h4]; exact g3
      · exact h4
  · rcases hc with ⟨-, g2 | g2 | ⟨x, g2⟩⟩ | ⟨x, -, g2, -⟩ <;> rw [g2] at h1 <;> simp at h1
  · rcases hc with ⟨-, g2 | g2 | ⟨x, g2⟩⟩ | ⟨x, -, g2, -⟩ <;> rw [g2] at h1 <;> simp at h1
  · rcases hc with ⟨-, g2 | g2 | ⟨x, g2⟩⟩ | ⟨x, -, g2, -⟩ <;> rw [g2] at h1 <;> simp at h1
  · rcases hc with ⟨-, g2 | g2 | ⟨x, g2⟩⟩ | ⟨x, -, g2, -⟩ <;> rw [g2] at h1 <;> simp at h1
  · rcases hc with ⟨g1, g2⟩ | ⟨x, -, g2, -⟩
    · exact Or.inl ⟨by rw [h2]; exact g1, Or.inr (Or.inl h1)⟩
    · rcases h0 with h0 | h0 <;> rw [g2] at h0 <;> simp at h0
  · obtain ⟨-, -, -, rfl⟩ := step_stopFault h
    rcases hc with ⟨g1, -⟩ | ⟨x, -, g2, -⟩
    · exact Or.inl ⟨g1, Or.inr (Or.inr ⟨addr, rfl⟩)⟩
    · rcases h0 with h0 | h0 <;> rw [g2] at h0 <;> simp at h0
  · rcases hc with ⟨g1, g2 | g2 | ⟨x, g2⟩⟩ | ⟨x, -, g2, -⟩
    · rw [g2] at h1; simp at h1
    · rw [g2] at h1; simp at h1
    · rw [g2] at h1
      simp only [LoopPc.deferSend.injEq] at h1
      subst h1
      refine Or.inr ⟨x, by rw [h2, g1]; rfl, h3, ?_⟩
      have hd := (hs.deferring _ g2).1
      rcases hfl with h4 | ⟨-, h4⟩
      · rw [h4]; exact hd
      · exact h4
    · rw [g2] at h1; simp at h1

/-- Once `recvLoop` has returned nothing moves it, it sends nothing and the
actor value stays as it is. -/
theorem returned_step {s t : Proc} {a : Action} (hl : s.loop = .returned)
    (h : s.step a = some t) :
    t.loop = .returned ∧ t.erroredSent = s.erroredSent ∧ t.actor = s.actor := by
  rcases step_loop h with ⟨h1, h3, h2, -⟩ | ⟨h1, -⟩ | ⟨h1, -⟩ | ⟨h1, -⟩ |
    ⟨⟨e, h1, -⟩, -⟩ | ⟨h1, -⟩ | ⟨h1, -⟩ | ⟨⟨e, h1, -⟩, -⟩
  · exact ⟨by rw [h1]; exact hl, h2, h3⟩
  · rw [hl] at h1; simp at h1
  · rw [hl] at h1; simp at h1
  · rw [hl] at h1; simp at h1
  · rw [hl] at h1; simp at h1
  · rcases h1 with h1 | h1 <;> rw [hl] at h1 <;> simp at h1
  · rcases h1 with h1 | h1 <;> rw [hl] at h1 <;> simp at h1
  · rw [hl] at h1; simp at h1

theorem returned_run {s t : Proc} {acts : List Action} (hl : s.loop = .returned)
    (h : s.run acts = some t) :
    t.loop = .returned ∧ t.erroredSent = s.erroredSent ∧ t.actor = s.actor := by
  induction acts generalizing s with
  | nil => simp [Proc.run] at h; subst h; exact ⟨hl, rfl, rfl⟩
  | cons a as ih =>
    obtain ⟨u, hu, hr⟩ := run_cons h
    obtain ⟨g1, g2, g3⟩ := returned_step hl hu
    obtain ⟨h1, h2, h3⟩ := ih g1 hr
    exact ⟨h1, by rw [h2, g2], by rw [h3, g3]⟩

/-- While nobody receives on `p.errored` the loop stays blocked at line 144. -/
theorem sending_run {s t : Proc} {acts : List Action} {e : GoError}
    (hl : s.loop = .sendErrored e) (hw : Action.watched ∉ acts) (h : s.run acts = some t) :
    t.loop = .sendErrored e ∧ t.actor = s.actor ∧ t.erroredSent = s.erroredSent := by
  induction acts generalizing s with
  | nil => simp [Proc.run] at h; subst h; exact ⟨hl, rfl, rfl⟩
  | cons a as ih =>
    obtain ⟨u, hu, hr⟩ := run_cons h
    have ha : a ≠ .watched := fun e => hw (by rw [e]; simp)
    have has : Action.watched ∉ as := fun e => hw (List.mem_cons_of_mem _ e)
    have hu2 : u.loop = .sendErrored e ∧ u.actor = s.actor ∧ u.erroredSent = s.erroredSent := by
      rcases step_loop hu with ⟨h1, h2, h3, -⟩ | ⟨h1, -⟩ | ⟨h1, -⟩ | ⟨h1, -⟩ |
        ⟨-, h1, -⟩ | ⟨h1, -⟩ | ⟨h1, -⟩ | ⟨-, h1, -⟩
      · exact ⟨by rw [h1]; exact hl, h2, h3⟩
      · rw [hl] at h1; simp at h1
      · rw [hl] at h1; simp at h1
      · rw [hl] at h1; simp at h1
      · exact absurd h1 ha
      · rcases h1 with h1 | h1 <;> rw [hl] at h1 <;> simp at h1
      · rcases h1 with h1 | h1 <;> rw [hl] at h1 <;> simp at h1
      · exact absurd h1 ha
    obtain ⟨h1, h2, h3⟩ := ih hu2.1 has hr
    exact ⟨h1, by rw [h2, hu2.2.1], by rw [h3, hu2.2.2]⟩

/-- A value sent on `p.errored` stays the only one. -/
theorem delivered_step {s t : Proc} {a : Action} {e : GoError} (hs : Settled s)
    (hp : s.pointer = false) (he : s.erroredSent = [e]) (h : s.step a = some t) :
    t.erroredSent = [e] := by
  rcases step_loop_value hs hp h with ⟨-, -, h2, -⟩ | ⟨-, -, -, h2, -⟩ | ⟨-, -, -, -, h2⟩ |
    ⟨-, -, -, -, h2, -⟩ | ⟨⟨x, h1, -⟩, -⟩ | ⟨-, -, -, -, h2, -⟩
  · rw [h2, he]
  · rw [h2, he]
  · rw [h2, he]
  · rw [h2, he]
  · have := (hs.sending x h1).1
    rw [he] at this
    simp at this
  · rw [h2, he]

/-! ## After a panic of `Receive` -/

theorem broken_of_faulted {log : List Ev} (hok : phase log ≠ .bad) (hf : Faulted log) :
    ∃ n, phase log = .broken n := by
  induction log using List.reverseRecOn with
  | nil =>
    obtain ⟨k, r, h⟩ := hf
    simp at h
  | append_singleton l e ih =>
    have hl : phase l ≠ .bad := fun hb => hok (phase_bad_append hb [e])
    rw [phase_snoc] at hok ⊢
    by_cases hfl : Faulted l
    · obtain ⟨n, hn⟩ := ih hl hfl
      rw [hn] at hok
      cases e <;> simp [Phase.next] at hok
    · obtain ⟨k, r, h⟩ := hf
      rcases List.mem_append.mp h with h | h
      · exact absurd ⟨k, r, h⟩ hfl
      · simp only [List.mem_singleton] at h
        subst h
        cases hq : phase l <;> rw [hq] at hok <;> simp only [Phase.next] at hok ⊢ <;>
          (try exact absurd rfl hok)
        split at hok
        · next n hk => subst hk; exact ⟨k, by simp⟩
        · exact absurd rfl hok

/-- After a panic of `Receive` no step adds an event to the history. -/
theorem faulted_step {s t : Proc} {a : Action} (hs : Inv s) (hf : Faulted s.log)
    (h : s.step a = some t) : t.log = s.log := by
  obtain ⟨n, hn⟩ := broken_of_faulted hs.ordered.ok hf
  have hok := (inv_step hs h).ordered.ok
  cases a with
  | prime k =>
    obtain ⟨w, -, -, -, -, rfl⟩ := step_prime h
    simp only [phase_snoc, hn, Phase.next] at hok
    exact absurd rfl hok
  | baton i k =>
    obtain ⟨v, w, -, -, -, -, -, -, rfl⟩ := step_baton h
    simp only [phase_snoc, hn, Phase.next] at hok
    exact absurd rfl hok
  | finish k o addr =>
    obtain ⟨w, -, -, -, -, rfl⟩ := step_finish h
    simp only [phase_snoc, hn] at hok
    cases o <;> simp [Phase.next, Outcome.event] at hok
  | report k =>
    obtain ⟨w, err, pc, -, -, -, rfl⟩ := step_report h
    rfl
  | accept m =>
    obtain ⟨-, rfl⟩ := step_accept h
    rfl
  | stopReq err =>
    obtain ⟨-, rfl⟩ := step_stopReq h
    rfl
  | watched =>
    rcases step_watched h with ⟨err, -, rfl⟩ | ⟨err, -, rfl⟩ <;> rfl
  | halt =>
    obtain ⟨-, -, rfl⟩ := step_halt h
    rfl
  | idle =>
    obtain ⟨-, rfl⟩ := step_idle h
    rfl
  | detach =>
    obtain ⟨-, rfl⟩ := step_detach h
    rfl
  | attach =>
    obtain ⟨-, rfl⟩ := step_attach h
    rfl
  | stopFault addr =>
    obtain ⟨-, -, -, rfl⟩ := step_stopFault h
    rfl

theorem faulted_run {s t : Proc} {acts : List Action} (hs : Inv s) (hf : Faulted s.log)
    (h : s.run acts = some t) : t.log = s.log := by
  induction acts generalizing s with
  | nil => simp [Proc.run] at h; subst h; rfl
  | cons a as ih =>
    obtain ⟨u, hu, hr⟩ := run_cons h
    have hul := faulted_step hs hf hu
    rw [ih (inv_step hs hu) (by rw [hul]; exact hf) hr, hul]

/-- Every value sent on `p.errored` is non-nil. -/
theorem settled_nonnil {s : Proc} (hs : Settled s) : ∀ e ∈ s.erroredSent, e ≠ none :=
  hs.nonnil

/-! ## C1: calls of `Receive` are sequential and in acceptance order -/

theorem calls_append (l1 l2 : List Ev) : calls (l1 ++ l2) = calls l1 ++ calls l2 := by
  simp [calls, List.filterMap_append]

/-- C1. For one actor started by `Spawn`, in every state reached by any schedule
of the loop and its workers: (1) the event just before the call of `Receive` by
worker `k + 1` is the return of the call by worker `k`, so `Receive(m_{k+1})` is
invoked only after `Receive(m_k)` has returned; (2) the call by worker `k` is the
`k`-th call, it is on the `k`-th accepted message, and the next event of the
history, if any, is the end of that same call, so calls never overlap and each
accepted message is passed to `Receive` at most once; (3) the messages `Receive`
was called on are a prefix of the accepted messages, in acceptance order; (4)
once no worker is waiting for the baton or inside `Receive`, `Receive` has been
called on exactly the accepted messages, in that order, and every call has
ended. -/
theorem receive_sequential_in_acceptance_order (actor : GoActor) (c : Nat)
    (acts : List Action) (s : Proc) (h : (Spawn actor c).run acts = some s) :
    (∀ pre post k m, s.log = pre ++ Ev.call (k + 1) m :: post →
      ∃ pre2 err, pre = pre2 ++ [Ev.ret k err]) ∧
    (∀ pre post k m, s.log = pre ++ Ev.call k m :: post →
      (calls pre).length = k ∧ s.accepted[k]? = some m ∧
        (post = [] ∨ ∃ o rest, post = Outcome.event o k :: rest)) ∧
    calls s.log = s.accepted.take (calls s.log).length ∧
    ((∀ w ∈ s.workers, w.pc ≠ .waitBaton ∧ w.pc ≠ .inReceive) →
      calls s.log = s.accepted ∧ (calls s.log).length = s.accepted.length ∧
        ended s.log = s.accepted.length) := by
  have hi := inv_run (inv_spawn actor c) h
  have hok := hi.ordered.ok
  have hcalls := hi.ordered.calls
  have hcnt := phase_counts s.log hok
  refine ⟨?_, ?_, ?_, ?_⟩
  · intro pre post k m hlog
    rw [hlog] at hok
    exact ret_before_quiet (quiet_of_call hok)
  · intro pre post k m hlog
    have hq : phase pre = .quiet k := by
      rw [hlog] at hok
      exact quiet_of_call hok
    have hpre : (calls pre).length = k := by
      have := (phase_counts pre (by rw [hq]; simp)).1
      rw [hq] at this
      exact this
    refine ⟨hpre, ?_, ?_⟩
    · have h1 : (calls s.log)[k]? = some m := by
        rw [hlog, calls_append]
        rw [List.getElem?_append_right (by omega), hpre, Nat.sub_self]
        simp [calls]
      rw [hcalls, List.getElem?_take] at h1
      split at h1
      · exact h1
      · simp at h1
    · cases post with
      | nil => exact Or.inl rfl
      | cons e rest =>
        right
        have hb : phase (pre ++ [Ev.call k m] ++ [e]) ≠ .bad := by
          intro hb
          apply hok
          have := phase_bad_append hb rest
          rw [hlog]
          simpa using this
        rw [phase_snoc, phase_snoc, hq] at hb
        simp only [Phase.next, if_true] at hb
        cases e with
        | call j x => simp [Phase.next] at hb
        | ret j err =>
          simp only [Phase.next] at hb
          split at hb
          · next hj => subst hj; exact ⟨.ret err, rest, rfl⟩
          · simp at hb
        | fault j r =>
          simp only [Phase.next] at hb
          split at hb
          · next hj => subst hj; exact ⟨.fault r, rest, rfl⟩
          · simp at hb
  · rw [hcnt.1]
    exact hcalls
  · intro hall
    have hst : (phase s.log).started = s.workers.length := by
      by_contra hne
      have hlt : (phase s.log).started < s.workers.length :=
        Nat.lt_of_le_of_ne hi.ordered.le hne
      have hw : s.workers[(phase s.log).started]? =
          some s.workers[(phase s.log).started] := List.getElem?_eq_getElem hlt
      have := hi.ordered.waiting _ _ hw (Nat.le_refl _)
      exact (hall _ (List.getElem_mem hlt)).1 this
    have hc : calls s.log = s.accepted := by
      rw [hcalls, hst, ← hi.wired.accepted, List.take_length]
    refine ⟨hc, by rw [hc], ?_⟩
    rw [hcnt.2, hi.wired.accepted, ← hst]
    cases hq : phase s.log with
    | quiet n => rfl
    | broken n => rfl
    | bad => exact absurd hq hok
    | busy n =>
      exfalso
      have hlt : n < s.workers.length := by
        rw [hq] at hst
        simp only [Phase.started] at hst
        omega
      have hw : s.workers[n]? = some s.workers[n] := List.getElem?_eq_getElem hlt
      have := hi.ordered.last n _ hw (by rw [hq]; rfl)
      rw [hq] at this
      exact (hall _ (List.getElem_mem hlt)).2 this

/-- The theorem C1 at the schedule `twoCalls`: both accepted messages were
passed to `Receive`, in acceptance order, and both calls have ended. -/
theorem receive_sequential_witness :
    (Spawn zeroActor 1).run twoCalls = some afterTwoCalls ∧
      calls afterTwoCalls.log = [msgA, msgB] ∧ ended afterTwoCalls.log = 2 :=
  ⟨by decide,
    ((receive_sequential_in_acceptance_order zeroActor 1 twoCalls afterTwoCalls
      (by decide)).2.2.2 (by decide)).1.trans (by decide),
    ((receive_sequential_in_acceptance_order zeroActor 1 twoCalls afterTwoCalls
      (by decide)).2.2.2 (by decide)).2.2.trans (by decide)⟩

/-! ## C7: the sends on `p.errored` -/

/-- In every state the loop has completed at most two sends on `p.errored`. -/
theorem settled_length {s : Proc} (hs : Settled s) : s.erroredSent.length ≤ 2 := by
  cases hl : s.loop with
  | select => rw [(hs.select hl).1]; simp
  | sendErrored e => rw [(hs.sending e hl).1]; simp
  | stopInternal =>
    obtain ⟨-, e, he, -⟩ := hs.internal hl
    rw [he]; simp
  | stopExternal => rw [(hs.external hl).1]; simp
  | deferSend e =>
    have := (hs.deferring e hl).2.2.2
    omega
  | returned => exact (hs.returned hl).1

/-- C7, counterexample.  An actor whose type embeds `*GoActor` is started by
`Spawn` and accepts one message; its `Receive` sets the embedded pointer to nil
and returns the error `boom`.  The loop takes the report and sends `boom` on
`p.errored` (line 144); `actor.stop()` then panics (line 145), and the deferred
function of line 133 sends the error made from the panic on `p.errored` (line
135): two sends by the control loop on the same handle. -/
theorem errored_sent_twice_counterexample :
    (SpawnAs true zeroActor 1).run stopPanics = some (pointerAfter stopPanics) ∧
      (pointerAfter stopPanics).erroredSent =
        [some boom,
          some (.errorString 0
            "runtime error: invalid memory address or nil pointer dereference")] ∧
      (pointerAfter stopPanics).erroredSent.length = 2 ∧
      (pointerAfter stopPanics).loop = .returned := by
  refine ⟨?_, ?_, ?_, ?_⟩ <;> decide

/-- C7, as the code has it.  For every handle created by `Spawn`, for an actor
that embeds `GoActor` (`b` false) or `*GoActor` (`b` true), and every schedule:
`recvLoop` has completed at most two sends on `p.errored`; at most one as long
as no call `actor.stop()` of the loop has panicked, and so at most one for every
actor that embeds `GoActor` itself; nothing has been sent while the loop is
blocked at the send of line 144; the loop is blocked at the send of line 135
only after `actor.stop()` has panicked, and then at most one send has completed;
`actor.stop()` panics only on an embedded `*GoActor` that is nil; every step
that sends is either the send of line 144, which is the first send and leads to
`actor.stop()`, or the send of line 135, after which the loop has returned; and
once the loop has returned nothing more is sent. -/
theorem errored_sent_at_most_twice (b : Bool) (actor : GoActor) (c : Nat)
    (acts : List Action) (s : Proc) (h : (SpawnAs b actor c).run acts = some s) :
    s.erroredSent.length ≤ 2 ∧
    (s.crashed = false → s.erroredSent.length ≤ 1) ∧
    (b = false → s.erroredSent.length ≤ 1) ∧
    (∀ e, s.loop = .sendErrored e → s.erroredSent = []) ∧
    (∀ e, s.loop = .deferSend e → s.crashed = true ∧ s.erroredSent.length ≤ 1) ∧
    (∀ a t, s.step a = some t → t.crashed ≠ s.crashed →
      (∃ addr, a = .stopFault addr) ∧ s.detached = true ∧ b = true ∧
        (s.loop = .stopInternal ∨ s.loop = .stopExternal)) ∧
    (∀ a t, s.step a = some t → t.erroredSent ≠ s.erroredSent →
      a = .watched ∧
        ((∃ e, s.loop = .sendErrored e ∧ s.erroredSent = [] ∧ t.erroredSent = [e] ∧
            t.loop = .stopInternal) ∨
          (∃ e, s.loop = .deferSend e ∧ s.crashed = true ∧
            t.erroredSent = s.erroredSent ++ [e] ∧ t.loop = .returned))) ∧
    (s.loop = .returned → ∀ acts2 t, s.run acts2 = some t → t.erroredSent = s.erroredSent) := by
  have hs := (inv_run (inv_spawnAs b actor c) h).settled
  have hone : s.crashed = false → s.erroredSent.length ≤ 1 := by
    intro hd
    rcases settled_attached hs hd with h1 | ⟨e, h1, -⟩ <;> rw [h1] <;> simp
  refine ⟨settled_length hs, hone, ?_, fun e hl => (hs.sending e hl).1, ?_, ?_, ?_, ?_⟩
  · intro hb
    have hp : s.pointer = false := by
      rw [pointer_run h, hb]
      rfl
    exact hone (settled_value hs hp).2
  · intro e hl
    obtain ⟨h1, -, -, h2⟩ := hs.deferring e hl
    exact ⟨h1, h2⟩
  · intro a t ht hne
    rcases (step_flags ht).2.2 with h1 | ⟨⟨addr, rfl⟩, -⟩
    · exact absurd h1 hne
    · obtain ⟨g1, g2, -, -⟩ := step_stopFault ht
      have hp : s.pointer = true := hs.ptr g2
      rw [pointer_run h] at hp
      exact ⟨⟨addr, rfl⟩, g2, hp, g1⟩
  · intro a t ht hne
    rcases step_loop ht with ⟨-, -, h2, -⟩ | ⟨-, -, -, h2, -⟩ | ⟨-, -, -, -, h2⟩ |
      ⟨-, -, -, -, h2, -⟩ | ⟨⟨e, h1, h2⟩, h3, h4, -⟩ | ⟨-, -, -, -, h2, -⟩ |
      ⟨-, -, -, -, -, h2, -⟩ | ⟨⟨e, h1, h2⟩, h3, h4, -⟩
    · exact absurd h2 hne
    · exact absurd h2 hne
    · exact absurd h2 hne
    · exact absurd h2 hne
    · have h0 := (hs.sending e h1).1
      exact ⟨h3, Or.inl ⟨e, h1, h0, by rw [h2, h0]; rfl, h4⟩⟩
    · exact absurd h2 hne
    · exact absurd h2 hne
    · exact ⟨h3, Or.inr ⟨e, h1, (hs.deferring e h1).1, h2, h4⟩⟩
  · intro hl acts2 t ht
    exact (returned_run hl ht).2.1

/-- The theorem of C7 at the schedule `stopPanics`: the two sends of that
schedule are all there are, and nothing follows them. -/
theorem errored_sent_at_most_twice_witness :
    (SpawnAs true zeroActor 1).run stopPanics = some (pointerAfter stopPanics) ∧
      (pointerAfter stopPanics).erroredSent.length ≤ 2 ∧
      ∀ acts2 t, (pointerAfter stopPanics).run acts2 = some t →
        t.erroredSent = (pointerAfter stopPanics).erroredSent :=
  ⟨by decide,
    (errored_sent_at_most_twice true zeroActor 1 stopPanics (pointerAfter stopPanics)
      (by decide)).1,
    (errored_sent_at_most_twice true zeroActor 1 stopPanics (pointerAfter stopPanics)
      (by decide)).2.2.2.2.2.2.2 (by decide)⟩

/-! ## C10: `makeError` -/

/-- C10, counterexample.  The error value `fancy` has `Error()` equal to
`"boom"` and implements `fmt.Formatter`: the message of `makeError(fancy)` is
what `Format` writes, `"fancy boom"`, and not `fancy.Error()`.  The error value
`shaky` has an `Error()` that panics: the message of `makeError(shaky)` is the
note of package `fmt` about the panic. -/
theorem makeError_message_counterexample :
    fancy.Error = .returns "boom" ∧
      (makeError { next := 0 } (.err fancy)).1 = some (.errorString 0 "fancy boom") ∧
      (ErrVal.errorString 0 "fancy boom").Error ≠ fancy.Error ∧
      shaky.Error = .panics false "oops" ∧
      (makeError { next := 0 } (.err shaky)).1 =
        some (.errorString 0 "%!s(PANIC=Error method: oops)") := by
  refine ⟨?_, ?_, ?_, ?_, ?_⟩ <;> decide

/-- C10, as the code has it.  For every non-nil value `v` recovered from a
panic, `makeError(v)` is a non-nil error: the `errorString` that `errors.New`
allocates at the next address of the heap, whose message is its text.  The text
is: for a string, the string; for an `errorString`, its text; for another error
without a `Format` method, what `Error()` returns, `<nil>` when `Error()` panics
on a nil pointer receiver, and the note `%!s(PANIC=Error method: ...)` when it
panics otherwise; for a value with a `Format` method, what `Format` does, in
the same three ways; for a value with a `String()` method only, what `String()`
does, in the same three ways; for an `int` or a `bool`, the bad-verb text.  So
for an error `e` without a `Format` method whose `Error()` returns, the message
is `e.Error()`.  The result is never an error that lives in the heap before the
call, so it is not the operand; and the worker that recovers `r` from a panic of
`Receive` goes to line 160 with exactly this error, which is not `r`. -/
theorem makeError_formats (h : Heap) :
    (∀ v, (makeError h v).1 ≠ none ∧ (makeError h v).2 = { next := h.next + 1 } ∧
      ∃ text, (makeError h v).1 = some (.errorString h.next text)) ∧
    (∀ a text, (ErrVal.errorString a text).Error = .returns text) ∧
    (∀ s, (makeError h (.str s)).1 = some (.errorString h.next s)) ∧
    (∀ a s, (makeError h (.err (.errorString a s))).1 = some (.errorString h.next s)) ∧
    ((∀ dyn text, (makeError h (.err (.custom dyn (.returns text) none))).1 =
        some (.errorString h.next text)) ∧
      (∀ dyn msg, (makeError h (.err (.custom dyn (.panics true msg) none))).1 =
        some (.errorString h.next "<nil>")) ∧
      (∀ dyn msg, (makeError h (.err (.custom dyn (.panics false msg) none))).1 =
        some (.errorString h.next ("%!s(PANIC=Error method: " ++ msg ++ ")")))) ∧
    ((∀ dyn error text, (makeError h (.err (.custom dyn error (some (.returns text))))).1 =
        some (.errorString h.next text)) ∧
      (∀ dyn error msg, (makeError h (.err (.custom dyn error (some (.panics true msg))))).1 =
        some (.errorString h.next "<nil>")) ∧
      (∀ dyn error msg, (makeError h (.err (.custom dyn error (some (.panics false msg))))).1 =
        some (.errorString h.next ("%!s(PANIC=Format method: " ++ msg ++ ")")))) ∧
    ((∀ dyn text, (makeError h (.stringer dyn (.returns text) none)).1 =
        some (.errorString h.next text)) ∧
      (∀ dyn msg, (makeError h (.stringer dyn (.panics true msg) none)).1 =
        some (.errorString h.next "<nil>")) ∧
      (∀ dyn msg, (makeError h (.stringer dyn (.panics false msg) none)).1 =
        some (.errorString h.next ("%!s(PANIC=String method: " ++ msg ++ ")")))) ∧
    ((∀ dyn string text, (makeError h (.stringer dyn string (some (.returns text)))).1 =
        some (.errorString h.next text)) ∧
      (∀ dyn string msg, (makeError h (.stringer dyn string (some (.panics true msg)))).1 =
        some (.errorString h.next "<nil>")) ∧
      (∀ dyn string msg, (makeError h (.stringer dyn string (some (.panics false msg)))).1 =
        some (.errorString h.next ("%!s(PANIC=Format method: " ++ msg ++ ")")))) ∧
    ((∀ n : Int, (makeError h (.int n)).1 =
        some (.errorString h.next ("%!s(int=" ++ toString n ++ ")"))) ∧
      (makeError h (.int 5)).1 = some (.errorString h.next "%!s(int=5)") ∧
      (makeError h (.bool true)).1 = some (.errorString h.next "%!s(bool=true)") ∧
      (makeError h (.bool false)).1 = some (.errorString h.next "%!s(bool=false)")) ∧
    (∀ e text, e.Error = .returns text → (∀ dyn error format, e ≠ .custom dyn error (some format)) →
      ∃ x, (makeError h (.err e)).1 = some x ∧ x.Error = e.Error) ∧
    (∀ e : ErrVal, e.within h = true → (makeError h (.err e)).1 ≠ some e) ∧
    (∀ (s t : Proc) (k : Nat) (r : Value) (addr : Nat),
      s.step (.finish k (.fault (some r)) addr) = some t →
      (∃ w, t.workers[k]? = some w ∧ w.pc = .recovered (makeError { next := addr } r).1) ∧
        t.heap = { next := addr + 1 } ∧
        ∀ e, r = .err e → (makeError { next := addr } r).1 ≠ some e) := by
  have fresh : ∀ (g : Heap) (e : ErrVal), e.within g = true →
      (makeError g (.err e)).1 ≠ some e := by
    intro g e he
    cases e with
    | errorString a s =>
      simp only [ErrVal.within, decide_eq_true_eq] at he
      simp only [makeError, errorsNew, ne_eq, Option.some.injEq, ErrVal.errorString.injEq,
        not_and]
      intro hx
      omega
    | custom dyn error format => simp [makeError, errorsNew]
  refine ⟨fun v => ⟨by simp [makeError, errorsNew], rfl, _, rfl⟩, fun _ _ => rfl,
    fun _ => rfl, fun _ _ => rfl, ⟨fun _ _ => rfl, fun _ _ => rfl, fun _ _ => rfl⟩,
    ⟨fun _ _ _ => rfl, fun _ _ _ => rfl, fun _ _ _ => rfl⟩,
    ⟨fun _ _ => rfl, fun _ _ => rfl, fun _ _ => rfl⟩,
    ⟨fun _ _ _ => rfl, fun _ _ _ => rfl, fun _ _ _ => rfl⟩,
    ⟨fun _ => rfl, by
      have ht : ("%!s(int=" ++ toString (5 : Int) ++ ")" : String) = "%!s(int=5)" := by decide
      simp only [makeError, errorsNew, sprintfS, ht], rfl, rfl⟩, ?_,
    fresh h, ?_⟩
  · intro e text he hf
    cases e with
    | errorString a s => exact ⟨_, rfl, rfl⟩
    | custom dyn error format =>
      cases format with
      | some f => exact absurd rfl (hf dyn error f)
      | none =>
        simp only [ErrVal.Error] at he
        subst he
        exact ⟨_, rfl, rfl⟩
  · intro s t k r addr hst
    obtain ⟨w, hk, -, -, hin, rfl⟩ := step_finish hst
    refine ⟨⟨{ w with pc := .recovered (makeError { next := addr } r).1 }, ?_, rfl⟩, rfl, ?_⟩
    · have hlt := lt_of_getElem?_eq_some hk
      simp only [afterReceive]
      rw [List.getElem?_set_self hlt]
    · intro e he
      subst he
      exact fresh { next := addr } e hin
/-! ## C8: `Init`, `Running`, `stop` -/

/-- What one step of the system is. -/
theorem sys_step {s t : System} {a : SysAction} (h : s.step a = some t) :
    (∃ b u, a = .parent b ∧ (s.parent.beside s.child).step b = some u ∧
      t = { s with parent := u }) ∨
    (∃ b u, a = .child b ∧ (s.child.beside s.parent).step b = some u ∧
      t = { s with child := u }) ∨
    (∃ err u, a = .watchRecv ∧ s.watch = .waiting ∧ s.child.loop.sending = some err ∧
      s.childPid.errored = s.child.p.errored ∧ s.child.step .watched = some u ∧
      t = { s with child := u, watch := .holding err }) ∨
    (∃ err, a = .watchSend ∧ s.watch = .holding err ∧ s.relay = .waiting ∧
      t = { s with watch := .returned, relay := .holding err }) ∨
    (∃ err u, a = .relaySend ∧ s.relay = .holding err ∧ s.kind = .child ∧
      s.parent.actor.self.recv = s.parent.p.recv ∧
      s.parent.step (.accept (notification err s.childPid)) = some u ∧
      t = { s with
        parent := u
        relay := .returned
        mailboxSent := s.mailboxSent ++ [notification err s.childPid] }) ∨
    (∃ err u, a = .relaySend ∧ s.relay = .holding err ∧ s.kind = .link ∧
      s.parent.actor.self.stop = s.parent.p.stop ∧ s.parent.step (.stopReq err) = some u ∧
      t = { s with parent := u, relay := .returned, stopSent := s.stopSent ++ [err] }) := by
  cases a with
  | parent b =>
    simp only [System.step, Option.map_eq_some'] at h
    obtain ⟨u, hu, rfl⟩ := h
    exact Or.inl ⟨b, u, rfl, hu, rfl⟩
  | child b =>
    simp only [System.step, Option.map_eq_some'] at h
    obtain ⟨u, hu, rfl⟩ := h
    exact Or.inr (Or.inl ⟨b, u, rfl, hu, rfl⟩)
  | watchRecv =>
    simp only [System.step] at h
    split at h
    · next err hw hl =>
      split at h
      · next hp =>
        simp only [Option.map_eq_some'] at h
        obtain ⟨u, hu, rfl⟩ := h
        exact Or.inr (Or.inr (Or.inl ⟨err, u, rfl, hw, hl, hp, hu, rfl⟩))
      · simp at h
    · simp at h
  | watchSend =>
    simp only [System.step] at h
    split at h
    · next err hw hr =>
      simp only [Option.some.injEq] at h
      exact Or.inr (Or.inr (Or.inr (Or.inl ⟨err, rfl, hw, hr, h.symm⟩)))
    · simp at h
  | relaySend =>
    simp only [System.step] at h
    split at h
    · next err hr hk =>
      split at h
      · next hp =>
        simp only [Option.map_eq_some'] at h
        obtain ⟨u, hu, rfl⟩ := h
        exact Or.inr (Or.inr (Or.inr (Or.inr (Or.inl ⟨err, u, rfl, hr, hk, hp, hu, rfl⟩))))
      · simp at h
    · next err hr hk =>
      split at h
      · next hp =>
        simp only [Option.map_eq_some'] at h
        obtain ⟨u, hu, rfl⟩ := h
        exact Or.inr (Or.inr (Or.inr (Or.inr (Or.inr ⟨err, u, rfl, hr, hk, hp, hu, rfl⟩))))
      · simp at h
    · simp at h

theorem actor_step {s t : Proc} {a : Action} (h : s.step a = some t)
    (hne : t.actor ≠ s.actor) : a = .halt ∧ t.actor = s.actor.stop := by
  rcases step_loop h with ⟨-, h1, -⟩ | ⟨-, -, h1, -⟩ | ⟨-, -, -, h1, -⟩ | ⟨-, -, -, h1, -⟩ |
    ⟨-, -, -, h1, -⟩ | ⟨-, h1, -, h2, -⟩ | ⟨-, -, -, -, h1, -⟩ | ⟨-, -, -, h1, -⟩
  · exact absurd h1 hne
  · exact absurd h1 hne
  · exact absurd h1 hne
  · exact absurd h1 hne
  · exact absurd h1 hne
  · exact ⟨h1, h2⟩
  · exact absurd h1 hne
  · exact absurd h1 hne

/-- C8. For every `GoActor` and every handle `p`: after `Init(p)`, `Running()`
returns true and the stored handle is `p`; after a following `stop()`,
`Running()` returns false and the stored handle is still `p`; `Running()` leaves
the actor as it is.  The actor a handle is spawned with is the one `Init` wrote;
after that a step changes the actor value only when it is the `actor.stop()` of
that actor's own control loop (the action `halt`), for one actor and for a
parent with a started actor alike. -/
theorem init_running_stop (ac : GoActor) (p : Pid) :
    ((ac.Init p).Running.1 = true ∧ (ac.Init p).self = p) ∧
    ((ac.Init p).stop.Running.1 = false ∧ (ac.Init p).stop.self = p) ∧
    (∀ a : GoActor, a.Running.2 = a) ∧
    (∀ c, (Spawn ac c).actor = ac.Init (Spawn ac c).p) ∧
    (∀ (s t : Proc) (a : Action), s.step a = some t → t.actor ≠ s.actor →
      a = .halt ∧ t.actor = s.actor.stop) ∧
    (∀ (s t : System) (a : SysAction), s.step a = some t →
      (t.parent.actor ≠ s.parent.actor →
        a = .parent .halt ∧ t.parent.actor = s.parent.actor.stop) ∧
      (t.child.actor ≠ s.child.actor →
        a = .child .halt ∧ t.child.actor = s.child.actor.stop)) := by
  refine ⟨⟨rfl, rfl⟩, ⟨rfl, rfl⟩, fun _ => rfl, fun _ => rfl,
    fun s t a h hne => actor_step h hne, ?_⟩
  intro s t a h
  rcases sys_step h with ⟨b, u, rfl, hu, rfl⟩ | ⟨b, u, rfl, hu, rfl⟩ |
    ⟨err, u, rfl, -, -, -, hu, rfl⟩ | ⟨err, rfl, -, -, rfl⟩ |
    ⟨err, u, rfl, -, -, -, hu, rfl⟩ | ⟨err, u, rfl, -, -, -, hu, rfl⟩
  · refine ⟨fun hne => ?_, fun hne => absurd rfl hne⟩
    obtain ⟨h1, h2⟩ := actor_step (s := s.parent.beside s.child) hu hne
    exact ⟨by rw [h1], h2⟩
  · refine ⟨fun hne => absurd rfl hne, fun hne => ?_⟩
    obtain ⟨h1, h2⟩ := actor_step (s := s.child.beside s.parent) hu hne
    exact ⟨by rw [h1], h2⟩
  · refine ⟨fun hne => absurd rfl hne, fun hne => ?_⟩
    obtain ⟨h1, -⟩ := actor_step hu hne
    simp at h1
  · exact ⟨fun hne => absurd rfl hne, fun hne => absurd rfl hne⟩
  · refine ⟨fun hne => ?_, fun hne => absurd rfl hne⟩
    obtain ⟨h1, -⟩ := actor_step hu hne
    simp at h1
  · refine ⟨fun hne => ?_, fun hne => absurd rfl hne⟩
    obtain ⟨h1, -⟩ := actor_step hu hne
    simp at h1

/-! ## C9: the order of delivery and `actor.stop()` on a failure report -/

/-- From the moment the loop has taken a failure report: either it is still
blocked at the send of line 144 and nothing has changed, or the send is done. -/
theorem after_report_run {s t : Proc} {acts : List Action} {e : GoError} (hs : Settled s)
    (hp : s.pointer = false)
    (hl : s.loop = .sendErrored e) (he : s.erroredSent = []) (h : s.run acts = some t) :
    (t.loop = .sendErrored e ∧ t.erroredSent = [] ∧ t.actor = s.actor) ∨
      ((t.loop = .stopInternal ∨ t.loop = .returned) ∧ t.erroredSent = [e]) := by
  induction acts using List.reverseRecOn generalizing t with
  | nil => simp [Proc.run] at h; subst h; exact Or.inl ⟨hl, he, rfl⟩
  | append_singleton as a ih =>
    obtain ⟨u, hu, hr⟩ := run_append h
    obtain ⟨v, hv, hvt⟩ := run_cons hr
    simp [Proc.run] at hvt
    subst hvt
    have hsu := settled_run hs hu
    have hpu : u.pointer = false := by rw [pointer_run hu]; exact hp
    rcases ih hu with ⟨h1, h2, h3⟩ | ⟨h1, h2⟩
    · rcases step_loop_value hsu hpu hv with ⟨g1, g2, g3, -⟩ | ⟨g1, -⟩ | ⟨g1, -⟩ | ⟨g1, -⟩ |
        ⟨⟨x, g1, g2⟩, -, g3, -⟩ | ⟨g1, -⟩
      · exact Or.inl ⟨by rw [g1, h1], by rw [g3, h2], by rw [g2, h3]⟩
      · rw [h1] at g1; simp at g1
      · rw [h1] at g1; simp at g1
      · rw [h1] at g1; simp at g1
      · rw [h1] at g1
        simp only [LoopPc.sendErrored.injEq] at g1
        subst g1
        exact Or.inr ⟨Or.inl g3, by rw [g2, h2]; rfl⟩
      · rcases g1 with g1 | g1 <;> rw [h1] at g1 <;> simp at g1
    · rcases step_loop_value hsu hpu hv with ⟨g1, -, g3, -⟩ | ⟨g1, -⟩ | ⟨g1, -⟩ | ⟨g1, -⟩ |
        ⟨⟨x, g1, -⟩, -⟩ | ⟨-, -, g1, -, g3, -⟩
      · exact Or.inr ⟨by rw [g1]; exact h1, by rw [g3, h2]⟩
      · rcases h1 with h1 | h1 <;> rw [h1] at g1 <;> simp at g1
      · rcases h1 with h1 | h1 <;> rw [h1] at g1 <;> simp at g1
      · rcases h1 with h1 | h1 <;> rw [h1] at g1 <;> simp at g1
      · rcases h1 with h1 | h1 <;> rw [h1] at g1 <;> simp at g1
      · exact Or.inr ⟨Or.inr g1, by rw [g3, h2]⟩

/-- A schedule that contains a failure report passes through a state in which
the loop has just taken the report. -/
theorem run_through_report {s t : Proc} {acts : List Action} {k : Nat} (hs : Inv s)
    (hk : Action.report k ∈ acts) (h : s.run acts = some t) :
    ∃ (u : Proc) (e : GoError) (post : List Action), u.loop = .sendErrored e ∧
      u.erroredSent = [] ∧ u.actor.alive = true ∧ u.run post = some t ∧
      (∀ a, a ∈ post → a ∈ acts) ∧ Settled u ∧ u.pointer = s.pointer := by
  obtain ⟨pre, post, rfl⟩ := List.append_of_mem hk
  obtain ⟨v, hv, hr⟩ := run_append h
  obtain ⟨u, hu, hut⟩ := run_cons hr
  have hiu := inv_step (inv_run hs hv) hu
  obtain ⟨w, err, pc, -, -, -, rfl⟩ := step_report hu
  obtain ⟨h1, h2, -⟩ := hiu.settled.sending err rfl
  exact ⟨_, err, post, rfl, h1, h2, hut, fun a ha =>
    List.mem_append_right _ (List.mem_cons_of_mem _ ha), hiu.settled,
    (pointer_run hv : v.pointer = s.pointer)⟩

/-- C9, counterexample.  In the state after the schedule `failureTaken` followed
by a receive on `p.errored`, the error has been delivered and `Running()` is
still true; and from the state after `failureTaken`, along every schedule in
which nobody receives on `p.errored`, `Running()` stays true. -/
theorem mark_before_deliver_counterexample :
    ((Spawn zeroActor 1).run (failureTaken ++ [.watched]) =
        some (stateAfter (failureTaken ++ [.watched])) ∧
      (stateAfter (failureTaken ++ [.watched])).erroredSent = [some boom] ∧
      (stateAfter (failureTaken ++ [.watched])).actor.Running.1 = true) ∧
    ((Spawn zeroActor 1).run failureTaken = some (stateAfter failureTaken) ∧
      ∀ acts t, Action.watched ∉ acts → (stateAfter failureTaken).run acts = some t →
        t.actor.Running.1 = true) := by
  refine ⟨⟨by decide, by decide, by decide⟩, by decide, ?_⟩
  intro acts t hw h
  have hl : (stateAfter failureTaken).loop = .sendErrored (some boom) := by decide
  obtain ⟨-, h2, -⟩ := sending_run hl hw h
  simp only [GoActor.Running, h2]
  decide

/-- C9, as the code has it.  On a failure report `recvLoop` first completes the
send on `p.errored`, then marks the actor not alive, then returns: while the loop
is blocked at the send `Running()` is true and nothing has been delivered, and
the only step that moves the loop is the delivery; right after the delivery
`Running()` is still true, and the only step that moves the loop is
`actor.stop()` with the return.  Hence an actor that has been marked not alive
along a schedule with a failure report has had its error delivered, and an actor
whose failure is never watched is never marked not alive. -/
theorem deliver_then_mark (actor : GoActor) (c : Nat) (acts : List Action) (s : Proc)
    (h : (Spawn actor c).run acts = some s) :
    (∀ e, s.loop = .sendErrored e → s.actor.Running.1 = true ∧ s.erroredSent = [] ∧
      ∀ a t, s.step a = some t → t.loop ≠ s.loop →
        a = .watched ∧ t.loop = .stopInternal ∧ t.erroredSent = [e] ∧
          t.actor.Running.1 = true) ∧
    (s.loop = .stopInternal → s.actor.Running.1 = true ∧ (∃ e, s.erroredSent = [e]) ∧
      ∀ a t, s.step a = some t → t.loop ≠ s.loop →
        a = .halt ∧ t.loop = .returned ∧ t.erroredSent = s.erroredSent ∧
          t.actor.Running.1 = false) ∧
    (∀ k, Action.report k ∈ acts → s.actor.Running.1 = false → ∃ e, s.erroredSent = [e]) ∧
    (∀ k, Action.report k ∈ acts → Action.watched ∉ acts → s.actor.Running.1 = true) := by
  have hi := inv_run (inv_spawn actor c) h
  have hp := (value_run h).1
  refine ⟨?_, ?_, ?_, ?_⟩
  · intro e hl
    obtain ⟨h1, h2, -⟩ := hi.settled.sending e hl
    refine ⟨h2, h1, ?_⟩
    intro a t ht hne
    rcases step_loop_value hi.settled hp ht with ⟨g1, -⟩ | ⟨g1, -⟩ | ⟨g1, -⟩ | ⟨g1, -⟩ |
      ⟨⟨x, g1, g2⟩, g3, g4, g5, -⟩ | ⟨g1, -⟩
    · exact absurd g1 hne
    · rw [hl] at g1; simp at g1
    · rw [hl] at g1; simp at g1
    · rw [hl] at g1; simp at g1
    · rw [hl] at g1
      simp only [LoopPc.sendErrored.injEq] at g1
      subst g1
      exact ⟨g3, g4, by rw [g2, h1]; rfl, by simp only [GoActor.Running, g5]; exact h2⟩
    · rcases g1 with g1 | g1 <;> rw [hl] at g1 <;> simp at g1
  · intro hl
    obtain ⟨h1, e, h2, -⟩ := hi.settled.internal hl
    refine ⟨h1, ⟨e, h2⟩, ?_⟩
    intro a t ht hne
    rcases step_loop_value hi.settled hp ht with ⟨g1, -⟩ | ⟨g1, -⟩ | ⟨g1, -⟩ | ⟨g1, -⟩ |
      ⟨⟨x, g1, -⟩, -⟩ | ⟨-, g1, g2, g3, g4, -⟩
    · exact absurd g1 hne
    · rw [hl] at g1; simp at g1
    · rw [hl] at g1; simp at g1
    · rw [hl] at g1; simp at g1
    · rw [hl] at g1; simp at g1
    · exact ⟨g1, g2, g4, by simp [GoActor.Running, g3, GoActor.stop]⟩
  · intro k hk hdead
    obtain ⟨u, e, post, h1, h2, h3, h4, -, h6, h7⟩ :=
      run_through_report (inv_spawn actor c) hk h
    rcases after_report_run h6 (by rw [h7]; rfl) h1 h2 h4 with ⟨-, -, g⟩ | ⟨-, g⟩
    · simp only [GoActor.Running] at hdead
      rw [g, h3] at hdead
      simp at hdead
    · exact ⟨e, g⟩
  · intro k hk hw
    obtain ⟨u, e, post, h1, -, h3, h4, h5, -⟩ := run_through_report (inv_spawn actor c) hk h
    obtain ⟨-, g, -⟩ := sending_run h1 (fun hin => hw (h5 _ hin)) h4
    simp only [GoActor.Running, g]
    exact h3

/-- The theorem of C9 at the schedule `failureTaken`: the failure is reported,
nobody watches, and `Running()` is true. -/
theorem deliver_then_mark_witness :
    (Spawn zeroActor 1).run failureTaken = some (stateAfter failureTaken) ∧
      (stateAfter failureTaken).actor.Running.1 = true :=
  ⟨by decide,
    (deliver_then_mark zeroActor 1 failureTaken (stateAfter failureTaken) (by decide)).2.2.2 0
      (by decide) (by decide)⟩

/-! ## C2: an external `Stop()` -/

/-- C2, counterexample.  A freshly spawned actor whose loop accepts the request
of `Stop()` (the value nil on `p.stop`) and returns: nothing has been sent on
`p.errored`, and nothing is sent on it in any continuation, so a pending `Watch`
is never resolved. -/
theorem stop_delivers_nil_counterexample :
    (Spawn zeroActor 1).run [.stopReq none, .halt] = some (stateAfter [.stopReq none, .halt]) ∧
      (stateAfter [.stopReq none, .halt]).loop = .returned ∧
      ∀ acts t, (stateAfter [.stopReq none, .halt]).run acts = some t → t.erroredSent = [] := by
  refine ⟨by decide, by decide, ?_⟩
  intro acts t h
  have hr : (Spawn zeroActor 1).run [.stopReq none, .halt] =
      some (stateAfter [.stopReq none, .halt]) := by decide
  exact (external_run (inv_run (inv_spawn zeroActor 1) hr).settled (value_run hr).1
    (Or.inr (by decide)) (by decide) h).2

/-- C2, as the code has it.  When the loop of a running actor accepts the
request of `Stop()`, it sends nothing on `p.errored`, then or in any later
state: it is either about to call `actor.stop()`, with `Running()` still true,
or it has returned, with `Running()` false; and the step to the second state is
enabled right after the request. -/
theorem stop_request_sends_nothing (actor : GoActor) (c : Nat) (acts : List Action)
    (s s1 : Proc) (h : (Spawn actor c).run acts = some s)
    (h1 : s.step s.p.Stop = some s1) :
    (∀ acts2 t, s1.run acts2 = some t → t.erroredSent = [] ∧
      ((t.loop = .stopExternal ∧ t.actor.Running.1 = true) ∨
        (t.loop = .returned ∧ t.actor.Running.1 = false))) ∧
    ∃ u, s1.step .halt = some u ∧ u.loop = .returned ∧ u.actor.Running.1 = false ∧
      u.erroredSent = [] := by
  have hi := inv_run (inv_spawn actor c) h
  obtain ⟨hp, hd, -⟩ := value_run h
  have hi1 := inv_step hi h1
  obtain ⟨hl, rfl⟩ := step_stopReq h1
  have he := (hi.settled.select hl).1
  constructor
  · intro acts2 t ht
    have hit : Inv t := inv_run hi1 ht
    have hpt : t.pointer = false := by rw [pointer_run ht]; exact hp
    have hs1 : ({ s with loop := .stopExternal } : Proc).loop = .stopExternal ∨
        ({ s with loop := .stopExternal } : Proc).loop = .returned := Or.inl rfl
    obtain ⟨g1, g2⟩ := external_run hi1.settled hp hs1 he ht
    refine ⟨g2, ?_⟩
    rcases g1 with g1 | g1
    · exact Or.inl ⟨g1, (hit.settled.external g1).2⟩
    · exact Or.inr ⟨g1, ((hit.settled.returned g1).2 (settled_value hit.settled hpt).2).1⟩
  · exact ⟨{ s with loop := .returned, actor := s.actor.stop }, by simp [Proc.step, hd], rfl,
      rfl, he⟩

/-- The theorem of C2 at a freshly spawned actor: after the `Stop()` request and
the return of the loop nothing was sent on `p.errored` and `Running()` is
false. -/
theorem stop_request_sends_nothing_witness :
    (Spawn zeroActor 1).step (Spawn zeroActor 1).p.Stop = some (stateAfter [.stopReq none]) ∧
      (stateAfter [.stopReq none, .halt]).erroredSent = [] :=
  ⟨by decide,
    ((stop_request_sends_nothing zeroActor 1 [] (Spawn zeroActor 1) (stateAfter [.stopReq none])
      (by decide) (by decide)).1 [.halt] (stateAfter [.stopReq none, .halt]) (by decide)).1⟩

/-! ## C5: a panic inside `Receive` -/

/-- C5, counterexample.  After `Receive` has panicked on the first message and
before the loop takes the report, the `select` of the loop still accepts a
second message from the mailbox. -/
theorem accepts_after_panic_counterexample :
    (Spawn zeroActor 1).run panicRaised = some (stateAfter panicRaised) ∧
      Faulted (stateAfter panicRaised).log ∧
      (stateAfter panicRaised).step (.accept msgB) =
        some (stateAfter (panicRaised ++ [.accept msgB])) ∧
      (stateAfter (panicRaised ++ [.accept msgB])).accepted = [msgA, msgB] :=
  ⟨by decide, ⟨0, some (.str "boom"), by decide⟩, by decide, by decide⟩

/-- C5, as the code has it.  From any state in which a call of `Receive` has
panicked, in every later state: every error sent on `p.errored` is non-nil;
the history of `Receive` has not grown, so `Receive` is never invoked again,
neither on a message already accepted nor on a later one; and if the loop had
left its `select` (it had taken the report), no further message is accepted.
When the recovered value is not nil and the loop is still in its `select`, the
report, the delivery and the return are enabled one after the other and deliver
the non-nil error of `makeError`, after which no message can be accepted. -/
theorem panic_ends_processing (actor : GoActor) (c : Nat) (acts : List Action) (s : Proc)
    (h : (Spawn actor c).run acts = some s) (hf : Faulted s.log) :
    (∀ acts2 t, s.run acts2 = some t →
      (∀ e ∈ t.erroredSent, e ≠ none) ∧ t.log = s.log ∧ calls t.log = calls s.log ∧
        (s.loop ≠ .select → t.accepted = s.accepted)) ∧
    (∀ k w e, s.workers[k]? = some w → w.pc = .recovered e → s.loop = .select →
      e ≠ none ∧ ∃ u, s.run [.report k, .watched, .halt] = some u ∧ u.erroredSent = [e] ∧
        u.loop = .returned ∧ ∀ m, u.step (.accept m) = none) := by
  have hi := inv_run (inv_spawn actor c) h
  obtain ⟨-, hd, -⟩ := value_run h
  constructor
  · intro acts2 t ht
    have hlog := faulted_run hi hf ht
    exact ⟨settled_nonnil (inv_run hi ht).settled, hlog, by rw [hlog],
      fun hl => (left_select_run hl ht).2⟩
  · intro k w e hk hpc hl
    have hr : afterReport w.pc = some (e, .returned) := by rw [hpc]; rfl
    refine ⟨(hi.settled.pending k w e _ hk hr).1, ?_⟩
    have he := (hi.settled.select hl).1
    refine ⟨{ s with
        loop := .returned
        actor := s.actor.stop
        workers := s.workers.set k { w with pc := .returned }
        erroredSent := s.erroredSent ++ [e] }, ?_, by simp [he], rfl, ?_⟩
    · simp [Proc.run, Proc.step, hk, hl, hr, Proc.setPc, hd]
    · intro m
      simp [Proc.step]

/-- The theorem of C5 at the schedule `panicRaised`: the report, the delivery
and the return deliver the error made from the string `"boom"`. -/
theorem panic_ends_processing_witness :
    (Spawn zeroActor 1).run panicRaised = some (stateAfter panicRaised) ∧
      Faulted (stateAfter panicRaised).log ∧
      (makeError { next := 7 } (.str "boom")).1 ≠ none :=
  ⟨by decide, ⟨0, some (.str "boom"), by decide⟩,
    ((panic_ends_processing zeroActor 1 panicRaised (stateAfter panicRaised) (by decide)
      ⟨0, some (.str "boom"), by decide⟩).2 0
      ⟨msgA, 0, 1, .recovered (makeError { next := 7 } (.str "boom")).1⟩ _ (by decide) rfl
      (by decide)).1⟩

/-! ## C6: messages accepted but not begun when the loop terminates -/

/-- C6, counterexample.  Two messages are accepted.  In the first schedule
`Receive` returns an error on the first message and the loop takes the report;
in the second the loop takes a `Stop()` request and returns.  In both, `Receive`
has not begun on the second message at that point, and a later state exists in
which `Receive` has been invoked on it. -/
theorem backlog_abandoned_counterexample :
    ((Spawn zeroActor 1).run failureWithBacklog = some (stateAfter failureWithBacklog) ∧
      (stateAfter failureWithBacklog).loop = .sendErrored (some boom) ∧
      (stateAfter failureWithBacklog).accepted = [msgA, msgB] ∧
      calls (stateAfter failureWithBacklog).log = [msgA] ∧
      (stateAfter failureWithBacklog).run [.baton 0 1] =
        some (stateAfter (failureWithBacklog ++ [.baton 0 1])) ∧
      calls (stateAfter (failureWithBacklog ++ [.baton 0 1])).log = [msgA, msgB]) ∧
    ((Spawn zeroActor 1).run stoppedWithBacklog = some (stateAfter stoppedWithBacklog) ∧
      (stateAfter stoppedWithBacklog).loop = .returned ∧
      (stateAfter stoppedWithBacklog).accepted = [msgA, msgB] ∧
      calls (stateAfter stoppedWithBacklog).log = [] ∧
      (stateAfter stoppedWithBacklog).run [.prime 0, .finish 0 (.ret none) 0, .baton 0 1] =
        some (stateAfter
          (stoppedWithBacklog ++ [.prime 0, .finish 0 (.ret none) 0, .baton 0 1])) ∧
      calls (stateAfter
        (stoppedWithBacklog ++ [.prime 0, .finish 0 (.ret none) 0, .baton 0 1])).log =
        [msgA, msgB]) := by
  refine ⟨⟨?_, ?_, ?_, ?_, ?_, ?_⟩, ⟨?_, ?_, ?_, ?_, ?_, ?_⟩⟩ <;> decide

/-- C6, as the code has it.  Once the loop has left its `select` (it has taken a
termination trigger), in every later state no further message has been accepted
and no further worker started; and when a call of `Receive` has panicked, every
message accepted but not begun stays not begun: `Receive` is not invoked on it
in any later state. -/
theorem backlog_abandoned_after_panic (actor : GoActor) (c : Nat) (acts : List Action)
    (s : Proc) (h : (Spawn actor c).run acts = some s) (hl : s.loop ≠ .select)
    (acts2 : List Action) (t : Proc) (ht : s.run acts2 = some t) :
    t.accepted = s.accepted ∧ t.workers.length = s.workers.length ∧
    (Faulted s.log → calls t.log = calls s.log ∧
      ∀ i m, s.accepted[i]? = some m → (calls s.log).length ≤ i → (calls t.log).length ≤ i) := by
  have hi := inv_run (inv_spawn actor c) h
  have hit := inv_run hi ht
  have hacc := (left_select_run hl ht).2
  refine ⟨hacc, by rw [← hit.wired.accepted, ← hi.wired.accepted, hacc], ?_⟩
  intro hf
  have hlog := faulted_run hi hf ht
  exact ⟨by rw [hlog], fun i m _ hle => by rw [hlog]; exact hle⟩

/-- The theorem of C6 at the schedule in which `Receive` panics on the first
message, a second message is accepted and the loop then takes the report: after
the delivery and the return of the loop `Receive` has still been called on the
first message only. -/
theorem backlog_abandoned_after_panic_witness :
    (Spawn zeroActor 1).run panicWithBacklog = some (stateAfter panicWithBacklog) ∧
      (stateAfter panicWithBacklog).loop ≠ .select ∧
      (stateAfter panicWithBacklog).run [.watched, .halt] =
        some (stateAfter (panicWithBacklog ++ [.watched, .halt])) ∧
      (stateAfter (panicWithBacklog ++ [.watched, .halt])).accepted = [msgA, msgB] ∧
      calls (stateAfter (panicWithBacklog ++ [.watched, .halt])).log = [msgA] :=
  ⟨by decide, by decide, by decide,
    (backlog_abandoned_after_panic zeroActor 1 panicWithBacklog (stateAfter panicWithBacklog)
      (by decide) (by decide) [.watched, .halt]
      (stateAfter (panicWithBacklog ++ [.watched, .halt])) (by decide)).1.trans (by decide),
    ((backlog_abandoned_after_panic zeroActor 1 panicWithBacklog (stateAfter panicWithBacklog)
      (by decide) (by decide) [.watched, .halt]
      (stateAfter (panicWithBacklog ++ [.watched, .halt])) (by decide)).2.2
      ⟨0, some (.str "boom"), by decide⟩).1.trans (by decide)⟩

/-! ## The invariant of a parent with a started actor -/

/-- What an actor knows about the allocations of another changes none of its
invariants. -/
theorem settled_beside {s : Proc} (hs : Settled s) (other : Proc) :
    Settled (s.beside other) :=
  ⟨hs.self, hs.ptr, hs.crash, hs.nonnil, hs.select, hs.sending, hs.internal, hs.external,
    hs.deferring, hs.returned, hs.pending⟩

theorem linked_start (kind : Kind) {parent : Proc} (hp : Settled parent) (b : Bool)
    (actor : GoActor) (c : Nat) : Linked (start kind parent b actor c) := by
  refine ⟨hp, settled_spawn b actor c, rfl, fun _ => rfl, fun _ => rfl, ?_,
    fun _ => ⟨rfl, rfl⟩, ?_, ?_⟩ <;> simp [start]

/-- A step only appends to the values sent on `p.errored`. -/
theorem errored_grows {s t : Proc} {a : Action} (h : s.step a = some t) :
    ∃ l, t.erroredSent = s.erroredSent ++ l := by
  rcases step_loop h with ⟨-, -, h2, -⟩ | ⟨-, -, -, h2, -⟩ | ⟨-, -, -, -, h2⟩ |
    ⟨-, -, -, -, h2, -⟩ | ⟨⟨x, -, h2⟩, -⟩ | ⟨-, -, -, -, h2, -⟩ | ⟨-, -, -, -, -, h2, -⟩ |
    ⟨⟨x, -, h2⟩, -⟩
  · exact ⟨[], by simp [h2]⟩
  · exact ⟨[], by simp [h2]⟩
  · exact ⟨[], by simp [h2]⟩
  · exact ⟨[], by simp [h2]⟩
  · exact ⟨[x], h2⟩
  · exact ⟨[], by simp [h2]⟩
  · exact ⟨[], by simp [h2]⟩
  · exact ⟨[x], h2⟩

/-- The rendezvous on `p.errored` completes the send the loop is blocked at. -/
theorem watched_sending {s t : Proc} {e : GoError} (hl : s.loop.sending = some e)
    (h : s.step .watched = some t) : t.erroredSent = s.erroredSent ++ [e] := by
  rcases step_watched h with ⟨x, hx, rfl⟩ | ⟨x, hx, rfl⟩ <;>
    (rw [hx] at hl; simp only [LoopPc.sending, Option.some.injEq] at hl; subst hl; rfl)

theorem linked_step {s t : System} {a : SysAction} (hs : Linked s) (h : s.step a = some t) :
    Linked t := by
  rcases sys_step h with ⟨b, u, rfl, hu, rfl⟩ | ⟨b, u, rfl, hu, rfl⟩ |
    ⟨err, u, rfl, hw, hl, hp, hu, rfl⟩ | ⟨err, rfl, hw, hr, rfl⟩ |
    ⟨err, u, rfl, hr, hk, hp, hu, rfl⟩ | ⟨err, u, rfl, hr, hk, hp, hu, rfl⟩
  · have hsp := settled_beside hs.parent s.child
    refine ⟨settled_step hsp hu, hs.child, hs.pid, hs.quiet, hs.watchW, hs.watchH,
      hs.relayW, hs.relayH, ?_⟩
    intro hrel
    obtain ⟨h0, e, h1, h3 | ⟨h3, h4, h5, h6⟩⟩ := hs.relayR hrel
    · exact ⟨h0, e, h1, Or.inl h3⟩
    · exact ⟨h0, e, h1, Or.inr ⟨h3, h4, h5, stopped_step hsp h6 hu⟩⟩
  · have hsc := settled_beside hs.child s.parent
    obtain ⟨hp, -⟩ := step_log hu
    obtain ⟨l2, hl2⟩ := errored_grows hu
    have hl2 : u.erroredSent = s.child.erroredSent ++ l2 := hl2
    have keep : ∀ e, e ∈ s.child.erroredSent → e ∈ u.erroredSent := fun e he => by
      rw [hl2]; exact List.mem_append_left _ he
    refine ⟨hs.parent, settled_step hsc hu, by simp only; rw [hp]; exact hs.pid, ?_,
      hs.watchW, ?_, hs.relayW, ?_, ?_⟩
    · intro he
      simp only at he
      rw [hl2] at he
      exact hs.quiet (List.append_eq_nil.mp he).1
    · intro e he
      obtain ⟨h0, h1⟩ := hs.watchH e he
      exact ⟨h0, keep e h1⟩
    · intro e he
      obtain ⟨h0, h1, h2, h3⟩ := hs.relayH e he
      exact ⟨h0, h1, h2, keep e h3⟩
    · intro hrel
      obtain ⟨h0, e, h1, h3⟩ := hs.relayR hrel
      exact ⟨h0, e, keep e h1, h3⟩
  · have hsent := watched_sending hl hu
    have hrel := hs.watchW hw
    obtain ⟨hpu, -⟩ := step_log hu
    refine ⟨hs.parent, settled_step hs.child hu, by simp only; rw [hpu]; exact hs.pid, ?_,
      by simp, ?_, hs.relayW, ?_, ?_⟩
    · intro he
      simp only at he
      rw [hsent] at he
      simp at he
    · intro e he
      simp only [WatchPc.holding.injEq] at he
      subst he
      exact ⟨hrel, by simp only; rw [hsent]; simp⟩
    · intro e he
      simp only at he
      rw [hrel] at he
      simp at he
    · intro he
      simp only at he
      rw [hrel] at he
      simp at he
  · obtain ⟨-, h1⟩ := hs.watchH err hw
    obtain ⟨h3, h4⟩ := hs.relayW hr
    refine ⟨hs.parent, hs.child, hs.pid, ?_, by simp, by simp, by simp, ?_, by simp⟩
    · intro he
      rw [he] at h1
      simp at h1
    · intro e he
      simp only [RelayPc.holding.injEq] at he
      subst he
      exact ⟨rfl, h3, h4, h1⟩
  · obtain ⟨h0, h1, h2, h3⟩ := hs.relayH err hr
    refine ⟨settled_step hs.parent hu, hs.child, hs.pid, ?_, ?_, ?_, by simp, by simp, ?_⟩
    · intro he
      rw [he] at h3
      simp at h3
    · intro he
      simp only at he
      rw [h0] at he
      simp at he
    · intro e he
      simp only at he
      rw [h0] at he
      simp at he
    · intro _
      exact ⟨h0, err, h3, Or.inl ⟨hk, by simp [h1], h2⟩⟩
  · obtain ⟨h0, h1, h2, h3⟩ := hs.relayH err hr
    have hsu := settled_step hs.parent hu
    obtain ⟨hsel, rfl⟩ := step_stopReq hu
    refine ⟨hsu, hs.child, hs.pid, ?_, ?_, ?_, by simp, by simp, ?_⟩
    · intro he
      rw [he] at h3
      simp at h3
    · intro he
      simp only at he
      rw [h0] at he
      simp at he
    · intro e he
      simp only at he
      rw [h0] at he
      simp at he
    · intro _
      exact ⟨h0, err, h3, Or.inr ⟨hk, h1, by simp [h2],
        Or.inl ⟨(hs.parent.select hsel).1, Or.inl rfl⟩⟩⟩

theorem sys_run_cons {s t : System} {a : SysAction} {as : List SysAction}
    (h : s.run (a :: as) = some t) : ∃ u, s.step a = some u ∧ u.run as = some t := by
  simp only [System.run] at h
  cases hu : s.step a with
  | none => rw [hu] at h; simp at h
  | some u => rw [hu] at h; exact ⟨u, rfl, by simpa using h⟩

theorem sys_run_append {s t : System} {as bs : List SysAction}
    (h1 : ∃ u, s.run as = some u ∧ u.run bs = some t) : s.run (as ++ bs) = some t := by
  induction as generalizing s with
  | nil =>
    obtain ⟨u, hu, hb⟩ := h1
    simp only [System.run, Option.some.injEq] at hu
    subst hu
    exact hb
  | cons a as ih =>
    obtain ⟨u, hu, hb⟩ := h1
    obtain ⟨v, hv, hr⟩ := sys_run_cons hu
    simp only [List.cons_append, System.run, hv, Option.some_bind]
    exact ih ⟨u, hr, hb⟩

/-- What a step of the system never changes, and what it never undoes: once the
relay has returned it sends nothing more. -/
theorem sys_frame_step {s t : System} {a : SysAction} (h : s.step a = some t) :
    t.kind = s.kind ∧ t.childPid = s.childPid ∧ t.parent.pointer = s.parent.pointer ∧
      t.child.pointer = s.child.pointer ∧
      (s.relay = .returned →
        t.relay = .returned ∧ t.mailboxSent = s.mailboxSent ∧ t.stopSent = s.stopSent) ∧
      (s.parent.loop = .returned →
        t.parent.loop = .returned ∧ t.parent.erroredSent = s.parent.erroredSent ∧
          t.parent.actor = s.parent.actor) := by
  rcases sys_step h with ⟨b, u, rfl, hu, rfl⟩ | ⟨b, u, rfl, hu, rfl⟩ |
    ⟨err, u, rfl, hw, hl, hp, hu, rfl⟩ | ⟨err, rfl, hw, hr, rfl⟩ |
    ⟨err, u, rfl, hr, hk, hp, hu, rfl⟩ | ⟨err, u, rfl, hr, hk, hp, hu, rfl⟩
  · exact ⟨rfl, rfl, (step_flags hu).1, rfl, fun h => ⟨h, rfl, rfl⟩,
      fun h1 => returned_step (s := s.parent.beside s.child) h1 hu⟩
  · exact ⟨rfl, rfl, rfl, (step_flags hu).1, fun h => ⟨h, rfl, rfl⟩, fun h1 => ⟨h1, rfl, rfl⟩⟩
  · exact ⟨rfl, rfl, rfl, (step_flags hu).1, fun h => ⟨h, rfl, rfl⟩, fun h1 => ⟨h1, rfl, rfl⟩⟩
  · refine ⟨rfl, rfl, rfl, rfl, fun h1 => ?_, fun h1 => ⟨h1, rfl, rfl⟩⟩
    rw [hr] at h1
    simp at h1
  · refine ⟨rfl, rfl, (step_flags hu).1, rfl, fun h1 => ?_, fun h1 => ?_⟩
    · rw [hr] at h1
      simp at h1
    · obtain ⟨g, -⟩ := step_accept hu
      rw [h1] at g
      simp at g
  · refine ⟨rfl, rfl, (step_flags hu).1, rfl, fun h1 => ?_, fun h1 => ?_⟩
    · rw [hr] at h1
      simp at h1
    · obtain ⟨g, -⟩ := step_stopReq hu
      rw [h1] at g
      simp at g

theorem linked_run {s t : System} {acts : List SysAction} (hs : Linked s)
    (h : s.run acts = some t) :
    Linked t ∧ t.kind = s.kind ∧ t.childPid = s.childPid ∧
      t.parent.pointer = s.parent.pointer ∧ t.child.pointer = s.child.pointer ∧
      (s.relay = .returned →
        t.relay = .returned ∧ t.mailboxSent = s.mailboxSent ∧ t.stopSent = s.stopSent) ∧
      (s.parent.loop = .returned →
        t.parent.loop = .returned ∧ t.parent.erroredSent = s.parent.erroredSent ∧
          t.parent.actor = s.parent.actor) := by
  induction acts generalizing s with
  | nil =>
    simp [System.run] at h
    subst h
    exact ⟨hs, rfl, rfl, rfl, rfl, fun h => ⟨h, rfl, rfl⟩, fun h => ⟨h, rfl, rfl⟩⟩
  | cons a as ih =>
    obtain ⟨u, hu, hr⟩ := sys_run_cons h
    obtain ⟨g1, g2, g3, g4, g5, g6⟩ := sys_frame_step hu
    obtain ⟨k0, k1, k2, k3, k4, k5, k6⟩ := ih (linked_step hs hu) hr
    refine ⟨k0, by rw [k1, g1], by rw [k2, g2], by rw [k3, g3], by rw [k4, g4], fun h => ?_,
      fun h => ?_⟩
    · obtain ⟨a1, a2, a3⟩ := g5 h
      obtain ⟨b1, b2, b3⟩ := k5 a1
      exact ⟨b1, by rw [b2, a2], by rw [b3, a3]⟩
    · obtain ⟨a1, a2, a3⟩ := g6 h
      obtain ⟨b1, b2, b3⟩ := k6 a1
      exact ⟨b1, by rw [b2, a2], by rw [b3, a3]⟩

/-- What the goroutine of `Watch`, the relay, or the history of the relay holds
is a non-nil value the loop of the started actor has sent on its `p.errored`;
as long as no `actor.stop()` of that loop has panicked it is the only such
value, a reported failure of its `Receive`. -/
theorem linked_value {s : System} (hs : Linked s) {e : GoError}
    (he : e ∈ s.child.erroredSent) :
    e ≠ none ∧ (s.child.crashed = false →
      s.child.erroredSent = [e] ∧ Reported s.child.log e) := by
  refine ⟨hs.child.nonnil e he, fun hd => ?_⟩
  rcases settled_attached hs.child hd with h1 | ⟨x, h1, h2⟩
  · rw [h1] at he
    simp at he
  · rw [h1] at he
    simp only [List.mem_singleton] at he
    subst he
    exact ⟨h1, h2⟩

/-- The rendezvous that carry a reported failure from the loop of the started
actor to the relay, one after the other. -/
theorem relay_gets_error {s : System} (hs : Linked s) {k : Nat} {w : Worker} {e : GoError}
    (hk : s.child.workers[k]? = some w) (hpc : w.pc = .sendStop e)
    (hl : s.child.loop = .select) :
    ∃ t, s.run [.child (.report k), .watchRecv, .watchSend] = some t ∧ Linked t ∧
      t.relay = .holding e ∧ t.parent = s.parent ∧ t.kind = s.kind ∧
      t.childPid = s.childPid ∧ t.mailboxSent = [] ∧ t.stopSent = [] ∧
      t.child.erroredSent = [e] := by
  have hr : afterReport w.pc = some (e, .passBaton) := by rw [hpc]; rfl
  have he := (hs.child.select hl).1
  have hw := hs.quiet he
  have hrel := hs.watchW hw
  obtain ⟨hm, hst⟩ := hs.relayW hrel
  have hrun : s.run [.child (.report k), .watchRecv, .watchSend] = some
      { s with
        child := { s.child with
          heap := s.child.heap.join s.parent.heap
          loop := .stopInternal
          workers := s.child.workers.set k { w with pc := .passBaton }
          erroredSent := s.child.erroredSent ++ [e] }
        watch := .returned
        relay := .holding e } := by
    simp [System.run, System.step, Proc.step, Proc.beside, hk, hl, hr, Proc.setPc, hw, hrel,
      hs.pid, LoopPc.sending]
  exact ⟨_, hrun, (linked_run hs hrun).1, rfl, rfl, rfl, rfl, hm, hst, by simp [he]⟩
/-! ## The stages between the loop of the started actor and the relay -/

/-- While the loop of the started actor is blocked at the send of line 144 the
goroutine of `Watch` is at its receive, and the rendezvous is enabled. -/
theorem watchRecv_enabled {s : System} (hs : Linked s) {e : GoError}
    (hl : s.child.loop = .sendErrored e) :
    ∃ t, s.step .watchRecv = some t ∧ t.watch = .holding e ∧ t.child.erroredSent = [e] ∧
      t.child.loop = .stopInternal := by
  have he := (hs.child.sending e hl).1
  have hw := hs.quiet he
  exact ⟨{ s with
      child := { s.child with loop := .stopInternal, erroredSent := s.child.erroredSent ++ [e] }
      watch := .holding e },
    by simp [System.step, Proc.step, hw, hl, LoopPc.sending, hs.pid], rfl, by simp [he], rfl⟩

/-- Once the goroutine of `Watch` holds a value the relay is at its receive, and
the rendezvous is enabled. -/
theorem watchSend_enabled {s : System} (hs : Linked s) {e : GoError}
    (hw : s.watch = .holding e) :
    ∃ t, s.step .watchSend = some t ∧ t.relay = .holding e ∧ t.watch = .returned := by
  have hr := (hs.watchH e hw).1
  exact ⟨{ s with watch := .returned, relay := .holding e },
    by simp [System.step, hw, hr], rfl, rfl⟩

/-- Once the loop of a started actor that embeds `GoActor` itself has taken a
stop request without having sent on `p.errored`, it never sends on it, and the
relay stays silent. -/
theorem child_silent_run {s t : System} {acts : List SysAction} (hs : Linked s)
    (hp : s.child.pointer = false)
    (hl : s.child.loop = .stopExternal ∨ s.child.loop = .returned)
    (he : s.child.erroredSent = []) (h : s.run acts = some t) :
    t.mailboxSent = [] ∧ t.stopSent = [] := by
  induction acts generalizing s with
  | nil =>
    simp [System.run] at h
    subst h
    exact hs.relayW (hs.watchW (hs.quiet he))
  | cons a as ih =>
    obtain ⟨u, hu, hr⟩ := sys_run_cons h
    have hlu := linked_step hs hu
    have hpu : u.child.pointer = false := by
      rw [(sys_frame_step hu).2.2.2.1]
      exact hp
    have hsc := settled_beside hs.child s.parent
    refine ih hlu hpu ?_ ?_ hr
    all_goals
      rcases sys_step hu with ⟨b, v, rfl, hv, rfl⟩ | ⟨b, v, rfl, hv, rfl⟩ |
        ⟨err, v, rfl, -, hc, -, -, rfl⟩ | ⟨err, rfl, -, -, rfl⟩ |
        ⟨err, v, rfl, -, -, -, -, rfl⟩ | ⟨err, v, rfl, -, -, -, -, rfl⟩
    · exact hl
    · exact (external_step hsc hp hl he hv).1
    · rcases hl with hl | hl <;> rw [hl] at hc <;> simp [LoopPc.sending] at hc
    · exact hl
    · exact hl
    · exact hl
    · exact he
    · exact (external_step hsc hp hl he hv).2
    · rcases hl with hl | hl <;> rw [hl] at hc <;> simp [LoopPc.sending] at hc
    · exact he
    · exact he
    · exact he

/-! ## C4: `StartChild` -/

/-- C4, counterexample.  A freshly spawned parent calls `StartChild`.  In the
first schedule the started actor accepts a message and begins `Receive`; its
loop then takes a `Stop()` request and returns; after that `Receive` returns the
non-nil error `boom` (worker `0` is at line 168 with it); in every continuation
the relay sends no message into the mailbox of the parent.  In the second
schedule `Receive` returns `boom` on the first of two accepted messages and
later `bang` on the second (worker `1` is at line 168 with it); the one message
the relay sends, in every continuation, carries `boom` and not `bang`. -/
theorem child_error_always_notified_counterexample :
    ((StartChild (Spawn zeroActor 1) false zeroActor 10).1.run childStoppedThenFails =
        some (childAfter childStoppedThenFails) ∧
      (childAfter childStoppedThenFails).child.workers[0]? =
        some ⟨msgA, 0, 1, .sendStop (some boom)⟩ ∧
      (childAfter childStoppedThenFails).parent.loop = .select ∧
      ∀ acts u, (childAfter childStoppedThenFails).run acts = some u → u.mailboxSent = []) ∧
    ((StartChild (Spawn zeroActor 1) false zeroActor 10).1.run childFailsTwice =
        some (childAfter childFailsTwice) ∧
      (childAfter childFailsTwice).child.workers[1]? =
        some ⟨msgB, 1, 2, .sendStop (some bang)⟩ ∧
      (⟨.notice ⟨some bang, ⟨10, 11, 12⟩⟩⟩ : Message) ≠ ⟨.notice ⟨some boom, ⟨10, 11, 12⟩⟩⟩ ∧
      ∀ acts u, (childAfter childFailsTwice).run acts = some u →
        u.mailboxSent = [⟨.notice ⟨some boom, ⟨10, 11, 12⟩⟩⟩]) := by
  have h0 : Linked (start .child (Spawn zeroActor 1) false zeroActor 10) :=
    linked_start .child (settled_spawn false zeroActor 1) false zeroActor 10
  have hrun : (StartChild (Spawn zeroActor 1) false zeroActor 10).1.run childStoppedThenFails =
      some (childAfter childStoppedThenFails) := by decide
  have hrun2 : (StartChild (Spawn zeroActor 1) false zeroActor 10).1.run childFailsTwice =
      some (childAfter childFailsTwice) := by decide
  refine ⟨⟨hrun, by decide, by decide, ?_⟩, hrun2, by decide, by decide, ?_⟩
  · intro acts u hu
    exact (child_silent_run (linked_run h0 hrun).1 (by decide) (Or.inr (by decide)) (by decide)
      hu).1
  · intro acts u hu
    have hr : (childAfter childFailsTwice).relay = .returned := by decide
    obtain ⟨-, -, -, -, -, k, -⟩ := linked_run (linked_run h0 hrun2).1 hu
    rw [(k hr).2.1]
    decide

/-- C4, as the code has it.  A parent reached from `Spawn` calls `StartChild`
on an actor (either of them may embed `GoActor` or `*GoActor`); `s` is any state
reached afterwards.  (1) In `s` the handle `StartChild` returned is the handle
of the started actor, the relay has sent nothing on the stop channel of the
parent and at most one message into its mailbox, and such a message is
`Message{Payload: Stop{err: e, Sender: childPid}}` with that handle and a
non-nil `e` that the loop of the started actor has sent on its `p.errored`: as
long as no `actor.stop()` of that loop has panicked the only value sent there, a
non-nil result of its `Receive` or the error made from a panic of it.  (2) In
`s`, whenever the loop of the started actor is blocked at line 144 with `e`, the
rendezvous with the `Watch` of `StartChild` is enabled and leaves `e` with that
goroutine; whenever that goroutine holds `e`, the hand over to the relay is
enabled; whenever the relay holds `e` and the loop of the parent is in its
`select`, the send of line 41 is enabled, and after it the relay has sent
exactly the message with `e` and the handle, nothing on the stop channel, the
parent has accepted that message, and its actor value is unchanged with
`Running()` true and its loop in `select`.  (3) When `Receive` of the started
actor has returned the non-nil error `e` (worker `k` is at line 168) and both
loops are in their `select`, the four rendezvous are enabled one after the
other, with the same result, and in every later state the relay has still sent
exactly that one message and nothing on the stop channel. -/
theorem startChild_notifies_parent (pb cb : Bool) (pa ca : GoActor) (c0 c : Nat)
    (acts0 : List Action) (parent : Proc) (hp : (SpawnAs pb pa c0).run acts0 = some parent)
    (acts : List SysAction) (s : System)
    (h : (StartChild parent cb ca c).1.run acts = some s) :
    ((StartChild parent cb ca c).2 = s.child.p ∧ s.stopSent = [] ∧
      s.mailboxSent.length ≤ 1 ∧
      ∀ m ∈ s.mailboxSent, ∃ e, e ≠ none ∧
        m = { Payload := .notice { err := e, Sender := (StartChild parent cb ca c).2 } } ∧
        e ∈ s.child.erroredSent ∧
        (s.child.crashed = false → s.child.erroredSent = [e] ∧
          ((∃ k, Ev.ret k e ∈ s.child.log) ∨
            ∃ k r g, Ev.fault k (some r) ∈ s.child.log ∧ e = (makeError g r).1))) ∧
    ((∀ e, s.child.loop = .sendErrored e →
        ∃ t, s.step .watchRecv = some t ∧ t.watch = .holding e ∧ t.child.erroredSent = [e]) ∧
      (∀ e, s.watch = .holding e → ∃ t, s.step .watchSend = some t ∧ t.relay = .holding e) ∧
      (∀ e, s.relay = .holding e → s.parent.loop = .select →
        ∃ t, s.step .relaySend = some t ∧ t.relay = .returned ∧
          t.mailboxSent =
            [{ Payload := .notice { err := e, Sender := (StartChild parent cb ca c).2 } }] ∧
          t.stopSent = [] ∧
          t.parent.accepted = s.parent.accepted ++
            [{ Payload := .notice { err := e, Sender := (StartChild parent cb ca c).2 } }] ∧
          t.parent.actor = s.parent.actor ∧ t.parent.actor.Running.1 = true ∧
          t.parent.loop = .select)) ∧
    (∀ k w e, s.child.workers[k]? = some w → w.pc = .sendStop (some e) →
      s.child.loop = .select → s.parent.loop = .select →
      ∃ t, s.run [.child (.report k), .watchRecv, .watchSend, .relaySend] = some t ∧
        t.mailboxSent =
          [{ Payload := .notice { err := some e, Sender := (StartChild parent cb ca c).2 } }] ∧
        t.stopSent = [] ∧
        t.parent.accepted = s.parent.accepted ++
          [{ Payload := .notice { err := some e, Sender := (StartChild parent cb ca c).2 } }] ∧
        t.parent.actor = s.parent.actor ∧ t.parent.actor.Running.1 = true ∧
        t.parent.loop = .select ∧
        ∀ acts2 u, t.run acts2 = some u →
          u.mailboxSent =
            [{ Payload := .notice { err := some e, Sender := (StartChild parent cb ca c).2 } }] ∧
          u.stopSent = []) := by
  have h0 : Linked (start .child parent cb ca c) :=
    linked_start .child (inv_run (inv_spawnAs pb pa c0) hp).settled cb ca c
  obtain ⟨hs, hkind, hpid, -⟩ := linked_run h0 h
  have hkind : s.kind = .child := hkind
  have hpid : s.childPid = (StartChild parent cb ca c).2 := hpid
  have hself : s.parent.actor.self.recv = s.parent.p.recv := by
    rw [hs.parent.self]
  have stage : ∀ {x : System} {e : GoError}, Linked x → x.kind = .child →
      x.childPid = (StartChild parent cb ca c).2 → x.relay = .holding e →
      x.parent.loop = .select →
      ∃ t, x.step .relaySend = some t ∧ t.relay = .returned ∧
        t.mailboxSent =
          [{ Payload := .notice { err := e, Sender := (StartChild parent cb ca c).2 } }] ∧
        t.stopSent = [] ∧
        t.parent.accepted = x.parent.accepted ++
          [{ Payload := .notice { err := e, Sender := (StartChild parent cb ca c).2 } }] ∧
        t.parent.actor = x.parent.actor ∧ t.parent.actor.Running.1 = true ∧
        t.parent.loop = .select := by
    intro x e hx hk hpd hrel hpl
    obtain ⟨-, h1, h2, -⟩ := hx.relayH e hrel
    have hsf : x.parent.actor.self.recv = x.parent.p.recv := by
      rw [hx.parent.self]
    refine ⟨{ x with
        parent := { x.parent with
          nextWait := x.parent.chans
          chans := x.parent.chans + 1
          workers := x.parent.workers ++
            [{ received := notification e x.childPid, currWait := x.parent.nextWait,
               opsNextWait := x.parent.chans, pc := .waitBaton }]
          accepted := x.parent.accepted ++ [notification e x.childPid] }
        relay := .returned
        mailboxSent := x.mailboxSent ++ [notification e x.childPid] }, ?_, rfl, ?_, h2, ?_,
      rfl, (hx.parent.select hpl).2, hpl⟩
    · simp [System.step, hrel, hk, hsf, Proc.step, hpl]
    · simp [h1, hpd, notification]
    · simp [hpd, notification]
  refine ⟨⟨?_, ?_⟩, ⟨?_, ?_, ?_⟩, ?_⟩
  · rw [← hpid]
    exact hs.pid
  · cases hrel : s.relay with
    | waiting =>
      obtain ⟨h1, h2⟩ := hs.relayW hrel
      simp [h1, h2]
    | holding e =>
      obtain ⟨-, h1, h2, -⟩ := hs.relayH e hrel
      simp [h1, h2]
    | returned =>
      obtain ⟨-, e, h1, ⟨-, h3, h4⟩ | ⟨h3, -⟩⟩ := hs.relayR hrel
      · refine ⟨h4, by simp [h3], ?_⟩
        intro m hm
        rw [h3] at hm
        simp only [List.mem_singleton] at hm
        obtain ⟨g1, g2⟩ := linked_value hs h1
        exact ⟨e, g1, by rw [hm, hpid]; rfl, h1, fun hd => ⟨(g2 hd).1, (g2 hd).2.2⟩⟩
      · rw [hkind] at h3
        simp at h3
  · intro e hl
    obtain ⟨t, g1, g2, g3, -⟩ := watchRecv_enabled hs hl
    exact ⟨t, g1, g2, g3⟩
  · intro e hw
    obtain ⟨t, g1, g2, -⟩ := watchSend_enabled hs hw
    exact ⟨t, g1, g2⟩
  · intro e hrel hpl
    exact stage hs hkind hpid hrel hpl
  · intro k w e hk hpc hcl hpl
    obtain ⟨t1, hrun1, ht1, g1, g2, g3, g4, g5, g6, g7⟩ := relay_gets_error hs hk hpc hcl
    obtain ⟨t, k1, k2, k3, k4, k5, k6, k7, k8⟩ :=
      stage ht1 (by rw [g3, hkind]) (by rw [g4, hpid]) g1 (by rw [g2]; exact hpl)
    have hrun : s.run ([.child (.report k), .watchRecv, .watchSend] ++ [.relaySend]) =
        some t := sys_run_append ⟨t1, hrun1, by simp [System.run, k1]⟩
    refine ⟨t, hrun, k3, k4, by rw [k5, g2], by rw [k6, g2], k7, k8, ?_⟩
    intro acts2 u hu
    obtain ⟨-, -, -, -, -, f, -⟩ := linked_run (linked_run hs hrun).1 hu
    obtain ⟨-, f1, f2⟩ := f k2
    exact ⟨by rw [f1, k3], by rw [f2, k4]⟩

/-- The theorem of C4 at a freshly spawned parent and the state in which
`Receive` of the started actor has returned `boom`: the four rendezvous are
enabled, and after them the relay has sent exactly one message, with `boom` and
the handle of the started actor, nothing on the stop channel, and `Running()` of
the parent is true. -/
theorem startChild_notifies_parent_witness :
    (SpawnAs false zeroActor 1).run [] = some (Spawn zeroActor 1) ∧
      (StartChild (Spawn zeroActor 1) false zeroActor 10).1.run childReturnsBoom =
        some (childAfter childReturnsBoom) ∧
      ∃ t, (childAfter childReturnsBoom).run
          [.child (.report 0), .watchRecv, .watchSend, .relaySend] = some t ∧
        t.mailboxSent = [⟨.notice ⟨some boom, ⟨10, 11, 12⟩⟩⟩] ∧ t.stopSent = [] ∧
        t.parent.actor.Running.1 = true := by
  obtain ⟨t, h1, h2, h3, -, -, h4, -⟩ :=
    (startChild_notifies_parent false false zeroActor zeroActor 1 10 [] (Spawn zeroActor 1)
      (by decide) childReturnsBoom (childAfter childReturnsBoom) (by decide)).2.2 0
      ⟨msgA, 0, 1, .sendStop (some boom)⟩ boom (by decide) rfl (by decide) (by decide)
  exact ⟨by decide, by decide, t, h1, h2, h3, h4⟩

/-! ## C3: `StartLink` -/

/-- After the case `<-p.stop`, as long as `actor.stop()` has not panicked, the
loop has sent nothing on `p.errored`, and it is about to call `actor.stop()` or
has returned with the actor marked not alive. -/
theorem stopped_attached {s : Proc} (hs : Settled s) (hc : Stopped s)
    (hd : s.crashed = false) :
    s.erroredSent = [] ∧
      (s.loop = .stopExternal ∨ (s.loop = .returned ∧ s.actor.Running.1 = false)) := by
  rcases hc with ⟨g1, g2 | g2 | ⟨a, g2⟩⟩ | ⟨a, -, -, g3⟩
  · exact ⟨g1, Or.inl g2⟩
  · exact ⟨g1, Or.inr ⟨g2, ((hs.returned g2).2 hd).1⟩⟩
  · have := (hs.deferring _ g2).1
    rw [hd] at this
    simp at this
  · rw [hd] at g3
    simp at g3

/-- C3, counterexample.  A freshly spawned parent calls `StartLink`; `Receive` of
the linked actor returns `boom`; the error travels through `Watch` and the relay
to the stop channel of the parent, whose loop takes it and returns.  The parent
is marked not alive, nothing has been sent on its `p.errored`, and nothing is
sent on it in any continuation: a `Watch` on the parent never resolves. -/
theorem link_error_reaches_watch_counterexample :
    (StartLink (Spawn zeroActor 1) false zeroActor 10).1.run (childFails ++ [.parent .halt]) =
        some (linkAfter (childFails ++ [.parent .halt])) ∧
      (linkAfter (childFails ++ [.parent .halt])).stopSent = [some boom] ∧
      (linkAfter (childFails ++ [.parent .halt])).parent.loop = .returned ∧
      (linkAfter (childFails ++ [.parent .halt])).parent.actor.Running.1 = false ∧
      ∀ acts u, (linkAfter (childFails ++ [.parent .halt])).run acts = some u →
        u.parent.erroredSent = [] := by
  have hrun : (StartLink (Spawn zeroActor 1) false zeroActor 10).1.run
      (childFails ++ [.parent .halt]) = some (linkAfter (childFails ++ [.parent .halt])) := by
    decide
  refine ⟨hrun, by decide, by decide, by decide, ?_⟩
  intro acts u hu
  have h0 : Linked (start .link (Spawn zeroActor 1) false zeroActor 10) :=
    linked_start .link (settled_spawn false zeroActor 1) false zeroActor 10
  obtain ⟨-, -, -, -, -, -, f⟩ := linked_run (linked_run h0 hrun).1 hu
  rw [(f (by decide)).2.1]
  decide

/-- C3, as the code has it.  A parent reached from `Spawn` calls `StartLink` on
an actor (either of them may embed `GoActor` or `*GoActor`); `s` is any state
reached afterwards.  (1) In `s` the relay has sent nothing into the mailbox of
the parent and at most one value on its stop channel; what the goroutine of
`Watch` or the relay holds, or the relay has sent, is a non-nil value that the
loop of the linked actor has sent on its `p.errored`: as long as no
`actor.stop()` of that loop has panicked the only value sent there, a non-nil
result of its `Receive` or the error made from a panic of it.  Once the relay has sent, the
loop of the parent has left its `select` through `case <-p.stop`: either it has
sent nothing on the `p.errored` of the parent and is about to call
`actor.stop()`, or has returned, or is blocked in its deferred function at the
send of the error made from the nil dereference of `actor.stop()`; or it has
sent that one error and returned, its `actor.stop()` having panicked.  As long
as `actor.stop()` of the parent has not panicked nothing has been sent on its
`p.errored`, and its loop is about to call `actor.stop()` or has returned with
`Running()` false.  (2) In `s`, whenever the loop of the linked actor is blocked
at line 144 with `e`, the rendezvous with the `Watch` of `StartLink` is enabled
and leaves `e` with that goroutine; whenever that goroutine holds `e`, the hand
over to the relay is enabled; whenever the relay holds `e` and the loop of the
parent is in its `select`, the send of line 51 is enabled, and after it the relay
has sent exactly `e` and the loop of the parent is about to call `actor.stop()`;
whenever the loop of the parent is there with its `GoActor` in place, the call
and the return are enabled, and after them `Running()` of the parent is false
and nothing has been sent on its `p.errored`.  (3) When `Receive` of the linked
actor has returned the non-nil error `e` (worker `k` is at line 168), both loops
are in their `select` and the `GoActor` of the parent is in place, these five
steps are enabled one after the other; after them the relay has sent exactly
`e`, the parent has returned and is marked not alive, nothing has been sent on
its `p.errored`, and in every later state the relay has sent nothing more, the
loop of the parent stays returned with `Running()` false, and nothing has been
sent on the `p.errored` of the parent. -/
theorem startLink_stops_parent (pb cb : Bool) (pa ca : GoActor) (c0 c : Nat)
    (acts0 : List Action) (parent : Proc) (hp : (SpawnAs pb pa c0).run acts0 = some parent)
    (acts : List SysAction) (s : System)
    (h : (StartLink parent cb ca c).1.run acts = some s) :
    (s.mailboxSent = [] ∧ s.stopSent.length ≤ 1 ∧
      (∀ e, s.watch = .holding e ∨ s.relay = .holding e ∨ e ∈ s.stopSent →
        e ≠ none ∧ e ∈ s.child.erroredSent ∧
        (s.child.crashed = false → s.child.erroredSent = [e] ∧
          ((∃ k, Ev.ret k e ∈ s.child.log) ∨
            ∃ k r g, Ev.fault k (some r) ∈ s.child.log ∧ e = (makeError g r).1))) ∧
      (s.stopSent ≠ [] →
        (s.parent.erroredSent = [] ∧
          (s.parent.loop = .stopExternal ∨ s.parent.loop = .returned ∨
            ∃ a, s.parent.loop = .deferSend (some (.errorString a
              "runtime error: invalid memory address or nil pointer dereference")))) ∨
        ∃ a, s.parent.erroredSent = [some (.errorString a
            "runtime error: invalid memory address or nil pointer dereference")] ∧
          s.parent.loop = .returned ∧ s.parent.crashed = true) ∧
      (s.stopSent ≠ [] → s.parent.crashed = false →
        s.parent.erroredSent = [] ∧
          (s.parent.loop = .stopExternal ∨
            (s.parent.loop = .returned ∧ s.parent.actor.Running.1 = false)))) ∧
    ((∀ e, s.child.loop = .sendErrored e →
        ∃ t, s.step .watchRecv = some t ∧ t.watch = .holding e ∧ t.child.erroredSent = [e]) ∧
      (∀ e, s.watch = .holding e → ∃ t, s.step .watchSend = some t ∧ t.relay = .holding e) ∧
      (∀ e, s.relay = .holding e → s.parent.loop = .select →
        ∃ t, s.step .relaySend = some t ∧ t.relay = .returned ∧ t.stopSent = [e] ∧
          t.mailboxSent = [] ∧ t.parent.loop = .stopExternal ∧
          t.parent.actor = s.parent.actor ∧ t.parent.erroredSent = []) ∧
      (s.parent.loop = .stopExternal → s.parent.detached = false →
        ∃ t, s.step (.parent .halt) = some t ∧ t.parent.loop = .returned ∧
          t.parent.actor.Running.1 = false ∧ t.parent.erroredSent = [] ∧
          t.stopSent = s.stopSent)) ∧
    (∀ k w e, s.child.workers[k]? = some w → w.pc = .sendStop (some e) →
      s.child.loop = .select → s.parent.loop = .select → s.parent.detached = false →
      ∃ t, s.run [.child (.report k), .watchRecv, .watchSend, .relaySend, .parent .halt] =
          some t ∧
        t.stopSent = [some e] ∧ t.mailboxSent = [] ∧ t.parent.loop = .returned ∧
        t.parent.actor.Running.1 = false ∧ t.parent.erroredSent = [] ∧
        ∀ acts2 u, t.run acts2 = some u →
          u.stopSent = [some e] ∧ u.parent.loop = .returned ∧
            u.parent.actor.Running.1 = false ∧ u.parent.erroredSent = []) := by
  have h0 : Linked (start .link parent cb ca c) :=
    linked_start .link (inv_run (inv_spawnAs pb pa c0) hp).settled cb ca c
  obtain ⟨hs, hkind, -⟩ := linked_run h0 h
  have hkind : s.kind = .link := hkind
  have sent : ∀ {x : System}, Linked x → x.kind = .link → x.stopSent ≠ [] →
      x.relay = .returned ∧ Stopped x.parent := by
    intro x hx hk hne
    cases hrel : x.relay with
    | waiting => exact absurd (hx.relayW hrel).2 hne
    | holding e => exact absurd (hx.relayH e hrel).2.2.1 hne
    | returned =>
      obtain ⟨-, e, -, ⟨g, -⟩ | ⟨-, -, -, g⟩⟩ := hx.relayR hrel
      · rw [hk] at g
        simp at g
      · exact ⟨rfl, g⟩
  have stage : ∀ {x : System} {e : GoError}, Linked x → x.kind = .link →
      x.relay = .holding e → x.parent.loop = .select →
      ∃ t, x.step .relaySend = some t ∧ t.relay = .returned ∧ t.stopSent = [e] ∧
        t.mailboxSent = [] ∧ t.parent.loop = .stopExternal ∧
        t.parent.actor = x.parent.actor ∧ t.parent.erroredSent = [] := by
    intro x e hx hk hrel hpl
    obtain ⟨-, h1, h2, -⟩ := hx.relayH e hrel
    have hsf : x.parent.actor.self.stop = x.parent.p.stop := by
      rw [hx.parent.self]
    exact ⟨{ x with
        parent := { x.parent with loop := .stopExternal }
        relay := .returned
        stopSent := x.stopSent ++ [e] },
      by simp [System.step, hrel, hk, hsf, Proc.step, hpl], rfl, by simp [h2], h1, rfl, rfl,
      (hx.parent.select hpl).1⟩
  have halt : ∀ {x : System}, Linked x → x.parent.loop = .stopExternal →
      x.parent.detached = false →
      ∃ t, x.step (.parent .halt) = some t ∧ t.parent.loop = .returned ∧
        t.parent.actor.Running.1 = false ∧ t.parent.erroredSent = [] ∧
        t.stopSent = x.stopSent ∧ t.relay = x.relay := by
    intro x hx hl hd
    exact ⟨{ x with
        parent := { x.parent.beside x.child with loop := .returned, actor := x.parent.actor.stop } },
      by simp [System.step, Proc.step, Proc.beside, hl, hd], rfl, rfl,
      (hx.parent.external hl).1, rfl, rfl⟩
  refine ⟨⟨?_, ?_, ?_, ?_, ?_⟩, ⟨?_, ?_, ?_, ?_⟩, ?_⟩
  · cases hrel : s.relay with
    | waiting => exact (hs.relayW hrel).1
    | holding e => exact (hs.relayH e hrel).2.1
    | returned =>
      obtain ⟨-, e, -, ⟨g, -⟩ | ⟨-, g, -⟩⟩ := hs.relayR hrel
      · rw [hkind] at g
        simp at g
      · exact g
  · cases hrel : s.relay with
    | waiting => simp [(hs.relayW hrel).2]
    | holding e => simp [(hs.relayH e hrel).2.2.1]
    | returned =>
      obtain ⟨-, e, -, ⟨g, -⟩ | ⟨-, -, g, -⟩⟩ := hs.relayR hrel
      · rw [hkind] at g
        simp at g
      · simp [g]
  · intro e he
    have hmem : e ∈ s.child.erroredSent := by
      rcases he with he | he | he
      · exact (hs.watchH e he).2
      · exact (hs.relayH e he).2.2.2
      · obtain ⟨hrel, -⟩ := sent hs hkind (List.ne_nil_of_mem he)
        obtain ⟨-, x, hx, ⟨g, -⟩ | ⟨-, -, g, -⟩⟩ := hs.relayR hrel
        · rw [hkind] at g
          simp at g
        · rw [g] at he
          simp only [List.mem_singleton] at he
          rw [he]
          exact hx
    obtain ⟨g1, g2⟩ := linked_value hs hmem
    exact ⟨g1, hmem, fun hd => ⟨(g2 hd).1, (g2 hd).2.2⟩⟩
  · intro hne
    exact (sent hs hkind hne).2
  · intro hne hd
    exact stopped_attached hs.parent (sent hs hkind hne).2 hd
  · intro e hl
    obtain ⟨t, g1, g2, g3, -⟩ := watchRecv_enabled hs hl
    exact ⟨t, g1, g2, g3⟩
  · intro e hw
    obtain ⟨t, g1, g2, -⟩ := watchSend_enabled hs hw
    exact ⟨t, g1, g2⟩
  · intro e hrel hpl
    exact stage hs hkind hrel hpl
  · intro hl hd
    obtain ⟨t, g1, g2, g3, g4, g5, -⟩ := halt hs hl hd
    exact ⟨t, g1, g2, g3, g4, g5⟩
  · intro k w e hk hpc hcl hpl hd
    obtain ⟨t1, hrun1, ht1, g1, g2, g3, g4, g5, g6, g7⟩ := relay_gets_error hs hk hpc hcl
    obtain ⟨t2, k1, k2, k3, k4, k5, k6, k7⟩ :=
      stage ht1 (by rw [g3, hkind]) g1 (by rw [g2]; exact hpl)
    have hrun2 : s.run ([.child (.report k), .watchRecv, .watchSend] ++ [.relaySend]) =
        some t2 := sys_run_append ⟨t1, hrun1, by simp [System.run, k1]⟩
    have ht2 := (linked_run hs hrun2).1
    have hd2 : t2.parent.detached = false := by
      obtain ⟨-, hrest⟩ := @step_stopReq t1.parent t2.parent (some e) (by
        simp only [System.step, g1, g3, hkind] at k1
        split at k1
        · simp only [Option.map_eq_some'] at k1
          obtain ⟨v, hv, rfl⟩ := k1
          exact hv
        · simp at k1)
      rw [hrest, g2]
      exact hd
    obtain ⟨t3, m1, m2, m3, m4, m5, m6⟩ := halt ht2 k5 hd2
    have hrun3 : s.run ([.child (.report k), .watchRecv, .watchSend, .relaySend] ++
        [.parent .halt]) = some t3 := sys_run_append ⟨t2, hrun2, by simp [System.run, m1]⟩
    have hlink : t3.kind = .link := by
      rw [(linked_run hs hrun3).2.1]
      exact hkind
    refine ⟨t3, hrun3, by rw [m5, k3], ?_, m2, m3, m4, ?_⟩
    · obtain ⟨-, q, -, ⟨g, -⟩ | ⟨-, g, -⟩⟩ :=
        (linked_run hs hrun3).1.relayR (by rw [m6]; exact k2)
      · rw [hlink] at g
        simp at g
      · exact g
    · intro acts2 u hu
      obtain ⟨-, -, -, -, -, f, f'⟩ := linked_run (linked_run hs hrun3).1 hu
      obtain ⟨-, -, f3⟩ := f (by rw [m6]; exact k2)
      obtain ⟨q1, q2, q3⟩ := f' m2
      exact ⟨by rw [f3, m5, k3], q1, by rw [q3]; exact m3, by rw [q2]; exact m4⟩

/-- The theorem of C3 at a freshly spawned parent and the state in which
`Receive` of the linked actor has returned `boom`: the five steps are enabled,
and after them the relay has sent `boom` on the stop channel, the parent has
returned with `Running()` false, and nothing has been sent on the `p.errored`
of the parent. -/
theorem startLink_stops_parent_witness :
    (SpawnAs false zeroActor 1).run [] = some (Spawn zeroActor 1) ∧
      (StartLink (Spawn zeroActor 1) false zeroActor 10).1.run childReturnsBoom =
        some (linkAfter childReturnsBoom) ∧
      (linkAfter childReturnsBoom).parent.detached = false ∧
      ∃ t, (linkAfter childReturnsBoom).run
          [.child (.report 0), .watchRecv, .watchSend, .relaySend, .parent .halt] = some t ∧
        t.stopSent = [some boom] ∧ t.parent.loop = .returned ∧
        t.parent.actor.Running.1 = false ∧ t.parent.erroredSent = [] := by
  obtain ⟨t, h1, h2, -, h3, h4, h5, -⟩ :=
    (startLink_stops_parent false false zeroActor zeroActor 1 10 [] (Spawn zeroActor 1)
      (by decide) childReturnsBoom (linkAfter childReturnsBoom) (by decide)).2.2 0
      ⟨msgA, 0, 1, .sendStop (some boom)⟩ boom (by decide) rfl (by decide) (by decide)
      (by decide)
  exact ⟨by decide, by decide, by decide, t, h1, h2, h3, h4, h5⟩

end Gotp
